import Mathlib

/-!
# Verification of go-fdo delegate-chain, COSE header, and ServiceInfo payload logic

This file gives a shallow embedding, in Lean 4, of the parts of the go-fdo
repository that the verified claims are about:

* `delegate.go`: the wildcard identifier predicates `IsPermittedIdentifier`
  and `IsPermittedIdentifierRule`, and the delegate-chain verifier
  `processDelegateChain` / `VerifyDelegateChain` / `GetIdentifier`.
* `cose` header marshaling (`Header.MarshalCBOR` / `Header.UnmarshalCBOR`,
  `omitEmpty`, the `Bstr`-wrapped "serialized-or-empty map").
* the `fdo.payload` FSIM owner and device modules (`fsim/payload_owner.go`
  and the device-side `Payload` module).
* `sigInfoFor` / `signOptsFor` and `HmacVerify`.

Go machine integers that are only ever non-negative in the modelled code are
embedded as `Nat`; byte strings are `List Nat` with each byte < 256 by
construction of the encoder.  Fallible Go functions returning `error` are
embedded as `Except String _` (or `Option`); a `nil` error is `.ok`.
-/

namespace GoFdo

/-! ## Wildcard identifier matching (`delegate.go`)

`IsPermittedIdentifier` and `IsPermittedIdentifierRule` build, for each
comma-separated pattern term `p`, the Go regular expression
`"^" + regexp.QuoteMeta(p) + "$"` with every (quoted) `*` replaced by `.*`,
and test the candidate string against it.  Since `QuoteMeta` makes every
other character literal, the resulting language is exactly glob matching:
a `*` in the pattern matches any sequence of non-newline characters (Go's
`.` does not match a newline under the default flags) and every other
character matches itself, a literal newline included.  `globMatch` below is
that matcher. -/

/-- Fuel-driven glob matcher: `globMatchAux fuel p s` decides whether the
pattern `p` (in which `'*'` is a wildcard for any sequence of non-newline
characters, matching `.*`, and all other characters are literal) matches
the whole string `s`.  The fuel only needs to exceed
`p.length + s.length`. -/
def globMatchAux : Nat → List Char → List Char → Bool
  | 0, _, _ => false
  | Nat.succ n, p, s =>
    match p, s with
    | [], [] => true
    | [], _ :: _ => false
    | a :: ps, [] => if a = '*' then globMatchAux n ps [] else false
    | a :: ps, c :: cs =>
      if a = '*' then
        globMatchAux n ps (c :: cs) || (!(c == '\n') && globMatchAux n (a :: ps) cs)
      else (a == c) && globMatchAux n ps cs

/-- `globMatch p s` : the pattern `p` matches the string `s`.  This is the
semantics of Go's `regexp.MatchString` on `"^" + QuoteMeta(p) + "$"` with
`\*` replaced by `.*`, as used by `IsPermittedIdentifier` and
`IsPermittedIdentifierRule`. -/
def globMatch (p s : List Char) : Bool :=
  globMatchAux (p.length + s.length + 1) p s

/-- `strings.Replace(s, " ", "", -1)`: remove every space. -/
def stripSpaces (l : List Char) : List Char := l.filter (fun c => !(c == ' '))

/-- `strings.Split(s, ",")` on character lists.  Never returns `[]`. -/
def splitOnComma : List Char → List (List Char)
  | [] => [[]]
  | c :: cs =>
    if c = ',' then [] :: splitOnComma cs
    else
      match splitOnComma cs with
      | [] => [[c]]
      | t :: ts => (c :: t) :: ts

/-- `IsPermittedIdentifier(name, permittedNames)` from `delegate.go`:
spaces are stripped from both arguments, `permittedNames` is split on commas,
and `name` (NOT split) must glob-match at least one of the resulting terms. -/
def IsPermittedIdentifier (name permittedNames : String) : Bool :=
  let n := stripSpaces name.data
  let names := splitOnComma (stripSpaces permittedNames.data)
  names.any (fun domain => globMatch domain n)

/-- `IsPermittedIdentifierRule(child, parent)` from `delegate.go`:
spaces are stripped from both arguments, both are split on commas, and every
term of `child` must glob-match at least one term of `parent`. -/
def IsPermittedIdentifierRule (child parent : String) : Bool :=
  let childIdentifiers := splitOnComma (stripSpaces child.data)
  let parentIdentifiers := splitOnComma (stripSpaces parent.data)
  childIdentifiers.all (fun c => parentIdentifiers.any (fun p => globMatch p c))

/-- `asn1.ObjectIdentifier`. -/
abbrev OID := List Nat

def OID_delegateOnboard : OID := [1, 3, 6, 1, 4, 1, 45724, 3, 1, 1]

def OID_delegateRedirect : OID := [1, 3, 6, 1, 4, 1, 45724, 3, 1, 2]

def OID_delegateUpload : OID := [1, 3, 6, 1, 4, 1, 45724, 3, 1, 3]

def OID_delegateClaim : OID := [1, 3, 6, 1, 4, 1, 45724, 3, 1, 4]

def OID_delegateProvision : OID := [1, 3, 6, 1, 4, 1, 45724, 3, 1, 5]

def OID_Identifier : OID := [1, 3, 6, 1, 4, 1, 45724, 3, 2]

def OID_IdentifierConstraints : OID := [1, 3, 6, 1, 4, 1, 45724, 3, 3]

/-- The fields of an `x509.Certificate` that the delegate verifier reads. -/
structure Cert where
  subjectCN : String
  issuerCN : String
  isCA : Bool
  basicConstraintsValid : Bool
  kuDigitalSignature : Bool
  kuCertSign : Bool
  extensions : List (OID × String)
  pubKey : Nat
  signedBy : Nat
deriving DecidableEq

def defaultCert : Cert :=
  { subjectCN := "", issuerCN := "", isCA := false, basicConstraintsValid := false
    kuDigitalSignature := false, kuCertSign := false, extensions := []
    pubKey := 0, signedBy := 0 }

/-- `certMissingOID`: true when no extension of the certificate has the OID. -/
def certMissingOID (c : Cert) (oid : OID) : Bool :=
  !(c.extensions.any (fun e => e.1 == oid))

/-- `getIdentConstraints`: the (space-stripped) value of the first
`IdentifierConstraints` extension, or `""`. -/
def getIdentConstraints (c : Cert) : String :=
  match c.extensions.find? (fun e => e.1 == OID_IdentifierConstraints) with
  | some e => String.mk (stripSpaces e.2.data)
  | none => ""

/-- `GetCertIdentifierStr`: the (space-stripped) value of the first
`Identifier` extension, or `""`. -/
def GetCertIdentifierStr (c : Cert) : String :=
  match c.extensions.find? (fun e => e.1 == OID_Identifier) with
  | some e => String.mk (stripSpaces e.2.data)
  | none => ""

/-- `GetIdentifier`: the leaf's identifier; an error on the empty chain. -/
def GetIdentifier (chain : List Cert) : Except String String :=
  match chain with
  | [] => .error "Cannot verify empty chain"
  | c :: _ => .ok (GetCertIdentifierStr c)

/-- The root-constraint scan at the end of `processDelegateChain`:
the value of the LAST `IdentifierConstraints` extension, not space-stripped
(the source loops over all extensions without breaking). -/
def rootIdentScan (c : Cert) : String :=
  c.extensions.foldl (fun acc e => if e.1 == OID_IdentifierConstraints then e.2 else acc) ""

/-- Abstraction of `chain[i].CheckSignatureFrom(chain[i+1])`: the signature
verifies exactly when the child was signed by the parent's key. -/
def checkSignatureFrom (child parent : Cert) : Bool :=
  child.signedBy == parent.pubKey

/-- The dynamic type of the owner public key (`switch (*ownerKey).(type)`). -/
inductive KeyKind
  | ecdsa
  | rsa
  | other
deriving DecidableEq

/-- An owner public key: its abstract key identifier and its dynamic type. -/
structure OwnerKey where
  pub : Nat
  kind : KeyKind
deriving DecidableEq

/-- The ephemeral self-signed owner root that `processDelegateChain`
synthesizes via `GenerateDelegate(rootPriv, DelegateFlagRoot, ownerPub,
issuer, issuer, oidArray, 0, getIdentConstraints(root))`.  Its public key is
the owner key; its own signature (by a freshly generated key) is never
checked because it is last in the chain. -/
def ephemeralRoot (ownerPub : Nat) (last : Cert) (oidArray : List OID) : Cert :=
  let ident := getIdentConstraints last
  { subjectCN := last.issuerCN
    issuerCN := last.issuerCN
    isCA := true
    basicConstraintsValid := true
    kuDigitalSignature := true
    kuCertSign := true
    extensions :=
      (if ident ≠ "" then [(OID_IdentifierConstraints, ident)] else [])
        ++ oidArray.map (fun o => (o, ""))
    pubKey := ownerPub
    signedBy := 0 }

/-- The `oidArray` built at the top of `processDelegateChain`. -/
def oidArrayOf (oid : Option OID) : List OID :=
  match oid with
  | some o => [o]
  | none => []

/-- The owner-key branch of `processDelegateChain`: if an owner key is
given, an ephemeral owner root is appended (or an error is returned for an
unknown key type). -/
def extendWithOwnerRoot (chain : List Cert) (ownerKey : Option OwnerKey)
    (oidArray : List OID) : Except String (List Cert) :=
  match ownerKey with
  | none => .ok chain
  | some k =>
    match k.kind with
    | .other => .error "Unknown key type"
    | .ecdsa => .ok (chain ++ [ephemeralRoot k.pub (chain.getLastD defaultCert) oidArray])
    | .rsa => .ok (chain ++ [ephemeralRoot k.pub (chain.getLastD defaultCert) oidArray])

/-- The trailing per-certificate checks of the loop body in
`processDelegateChain`: function-OID presence, `DigitalSignature` usage,
`BasicConstraintsValid`, and (for non-leaf certificates) `IsCA` and
`CertSign` usage. -/
def certStepTail (oid : Option OID) (isFirst : Bool) (c : Cert) (nextStr : String) :
    Except String String :=
  if (match oid with | some o => certMissingOID c o | none => false) = true then
    .error "VerifyDelegate error - cert has no permission"
  else if c.kuDigitalSignature = false then .error "VerifyDelegate cert: No Digital Signature Usage"
  else if c.basicConstraintsValid = false then .error "VerifyDelegate cert: Basic Constraints not valid"
  else if isFirst = false ∧ c.isCA = false then .error "VerifyDelegate cert: Not a CA"
  else if isFirst = false ∧ c.kuCertSign = false then .error "VerifyDelegate cert: No CertSign Usage"
  else .ok nextStr

/-- One iteration of the loop in `processDelegateChain` over certificate `c`
with constraint string `constrs` (the leaf identifier when `isFirst`, else
the certificate's `IdentifierConstraints`).  `next?` is the next certificate
up the chain, if any.  Returns the new `prevOwner` (the source's `nextStr`,
which always equals `constrs`: it is set to `constrs` when `constrs` is
non-empty and stays `""` otherwise). -/
def certStep (oid : Option OID) (isFirst : Bool) (constrs : String) (c : Cert)
    (next? : Option Cert) (prevOwner : String) : Except String String :=
  if constrs ≠ "" ∧ prevOwner ≠ "" ∧ IsPermittedIdentifierRule prevOwner constrs = false then
    .error "NamedIdentifier in entry not allowed by prior"
  else if isFirst = false ∧ prevOwner = "" ∧ constrs ≠ "" then
    .error "No NamedIdentifier in entry but one was indicated"
  else
    match next? with
    | some nxt =>
      if checkSignatureFrom c nxt = false then
        .error "VerifyDelegate Chain Validation error - not signed by next"
      else if c.issuerCN ≠ nxt.subjectCN then
        .error "Subject issued by unexpected issuer"
      else certStepTail oid isFirst c constrs
    | none => certStepTail oid isFirst c constrs

/-- The loop of `processDelegateChain`, walking the chain leaf-first and
threading `prevOwner`. -/
def delegateLoop (oid : Option OID) : Bool → String → List Cert → Except String Unit
  | _, _, [] => .ok ()
  | isFirst, prevOwner, c :: rest =>
    match certStep oid isFirst
        (if isFirst then GetCertIdentifierStr c else getIdentConstraints c)
        c rest.head? prevOwner with
    | .error e => .error e
    | .ok nextStr => delegateLoop oid false nextStr rest

/-- The final named-owner check of `processDelegateChain`: when a named
owner is expected and the root carries a (raw) `IdentifierConstraints`
value, the source requires `IsPermittedIdentifierRule(rootIdent, namedOwner)`. -/
def rootNamedOwnerCheck (chain2 : List Cert) (namedOwner : Option String) :
    Except String Unit :=
  match namedOwner with
  | some n =>
    if rootIdentScan (chain2.getLastD defaultCert) ≠ "" then
      if IsPermittedIdentifierRule (rootIdentScan (chain2.getLastD defaultCert)) n = false then
        .error "Chain scoped to namedIdentifier, but root only scoped differently"
      else .ok ()
    else .ok ()
  | none => .ok ()

/-- `processDelegateChain(chain, ownerKey, oid, output, namedOwner)` from
`delegate.go`.  The `output` flag only controls printing in the source and
has no semantic effect. -/
def processDelegateChain (chain : List Cert) (ownerKey : Option OwnerKey)
    (oid : Option OID) (output : Bool) (namedOwner : Option String) :
    Except String Unit :=
  let _ := output
  if chain.length = 0 then .error "Empty chain"
  else
    match extendWithOwnerRoot chain ownerKey (oidArrayOf oid) with
    | .error e => .error e
    | .ok chain2 =>
      match delegateLoop oid true "" chain2 with
      | .error e => .error e
      | .ok _ => rootNamedOwnerCheck chain2 namedOwner

/-- `VerifyDelegateChain` from `delegate.go`. -/
def VerifyDelegateChain (chain : List Cert) (ownerKey : Option OwnerKey)
    (oid : Option OID) (namedOwner : Option String) : Except String Unit :=
  processDelegateChain chain ownerKey oid false namedOwner

/-! ### Inversion lemmas for the delegate loop -/

/-- COSE signature algorithm identifiers. -/
inductive SigAlg
  | ES256
  | ES384
  | RS256
  | RS384
  | PS256
  | PS384
deriving DecidableEq

/-- The two digests used by the mapping. -/
inductive HashKind
  | SHA256
  | SHA384
deriving DecidableEq

/-- `crypto.SignerOpts` as produced by `signOptsFor`: a bare hash, a
`rsa.PSSOptions{SaltLength: rsa.PSSSaltLengthEqualsHash, Hash: h}` (the
`pss` constructor carries salt-length-equals-hash by construction), or the
nil interface for non-RSA keys. -/
inductive SignerOpts
  | nil
  | hash (h : HashKind)
  | pss (h : HashKind)
deriving DecidableEq

/-- Public key material. -/
inductive KeyType
  | ecdsaP256
  | ecdsaP384
  | rsa (size : Nat)
deriving DecidableEq

/-- `signOptsFor(key, usePSS)` from the source: RSA keys select SHA-256 for
2048-bit moduli and SHA-384 for 3072-bit moduli (any other size is an
error), wrapped in PSS options exactly when `usePSS`; non-RSA keys yield
nil options. -/
def signOptsFor (key : KeyType) (usePSS : Bool) : Except String SignerOpts :=
  match key with
  | .rsa size =>
    if size = 2048 / 8 then
      .ok (if usePSS then .pss .SHA256 else .hash .SHA256)
    else if size = 3072 / 8 then
      .ok (if usePSS then .pss .SHA384 else .hash .SHA384)
    else .error "unsupported RSA key size"
  | .ecdsaP256 => .ok .nil
  | .ecdsaP384 => .ok .nil

/-- Modelled from the spec: `cose.SignatureAlgorithmFor` (package `cose`,
whose implementation is not under src/; only its caller `sigInfoFor` is).
The spec fixes the mapping: ECDSA-P-256 → ES256+SHA-256; ECDSA-P-384 →
ES384+SHA-384; RSA-2048 → RS256 (or PS256 when PSS is in use); RSA-3072 →
RS384/PS384. -/
def SignatureAlgorithmFor (key : KeyType) (opts : SignerOpts) : Except String SigAlg :=
  match key with
  | .ecdsaP256 => .ok .ES256
  | .ecdsaP384 => .ok .ES384
  | .rsa _ =>
    match opts with
    | .hash .SHA256 => .ok .RS256
    | .hash .SHA384 => .ok .RS384
    | .pss .SHA256 => .ok .PS256
    | .pss .SHA384 => .ok .PS384
    | .nil => .error "missing hash options for RSA key"

/-- The `sigInfo` structure (`Type`, `Info`). -/
structure SigInfo where
  sgType : SigAlg
  info : List Nat
deriving DecidableEq

/-- `sigInfoFor(key, usePSS)` from the source: deduce signer options, then
the COSE algorithm, from the key material and the PSS selector alone. -/
def sigInfoFor (key : KeyType) (usePSS : Bool) : Except String SigInfo :=
  match signOptsFor key usePSS with
  | .error e => .error e
  | .ok opts =>
    match SignatureAlgorithmFor key opts with
    | .error e => .error e
    | .ok alg => .ok { sgType := alg, info := [] }

/-! ## HMAC verification (`HmacVerify`) -/

/-- A Go `error` value, recording whether `errors.Is(err,
ErrCryptoVerifyFailed)` holds (the sentinel itself is defined outside the
provided sources; only the wrapping behaviour matters here). -/
structure GoError where
  wrapsCryptoVerifyFailed : Bool
  msg : String
deriving DecidableEq

/-- The FDO `Hash`/`Hmac` structure: an algorithm identifier and the MAC
bytes. -/
structure HmacHash where
  Algorithm : Int
  Value : List Nat
deriving DecidableEq

/-- `hmac.Equal`: constant-time byte-slice equality. -/
def hmacEqual (a b : List Nat) : Bool := a == b

/-- `HmacVerify(dc, h1, v)` from the source.  The `KeyedHasher` interface is
its single method `Hmac(alg, value)`, modelled as a function argument.  A
failed recomputation is returned unchanged; a mismatch returns an error
wrapping `ErrCryptoVerifyFailed`. -/
def HmacVerify {α : Type} (dc : Int → α → Except GoError HmacHash)
    (h1 : HmacHash) (v : α) : Except GoError Unit :=
  match dc h1.Algorithm v with
  | .error e => .error e
  | .ok h2 =>
    if hmacEqual h1.Value h2.Value then .ok ()
    else .error { wrapsCryptoVerifyFailed := true, msg := "hmac did not match" }

/-! ## A canonical CBOR codec

Modelled from the spec: the repository's own `cbor` package is not among
the provided sources (only its users are), and §4.1 of the specification
describes it as a canonical, deterministic binary codec (definite-length
maps and arrays, shortest integer encoding) with `parse(serialize(x)) = x`.
The following byte-level encoder/decoder realises exactly that for the CBOR
subset the modelled code exercises: unsigned and negative integers, byte
strings, text strings, arrays, maps, and booleans.  Bytes are `Nat`s below
256 (by construction of the encoder); lengths beyond the 8-byte CBOR
argument are unencodable and make the encoder fail, as they would in any
real implementation.  Go maps carry no order; association lists stand for
them, and the codec preserves entry order. -/

/-- CBOR data items: the universe of the codec (Go's `any` after CBOR
unmarshaling). -/
inductive CborValue
  | uint (n : Nat)
  | nint (n : Nat)
  | bstr (bs : List Nat)
  | tstr (ts : List Nat)
  | arr (vs : List CborValue)
  | map (kvs : List (CborValue × CborValue))
  | bool (b : Bool)

/-- Big-endian byte expansion, `k` bytes. -/
def beBytes : Nat → Nat → List Nat
  | 0, _ => []
  | k + 1, n => beBytes k (n / 256) ++ [n % 256]

/-- Big-endian byte recomposition. -/
def fromBE (l : List Nat) : Nat := l.foldl (fun a b => a * 256 + b) 0

/-- Encode a CBOR head: 3-bit major type and the shortest-form argument. -/
def encodeHead (major arg : Nat) : Except String (List Nat) :=
  if arg < 24 then .ok [32 * major + arg]
  else if arg < 256 then .ok [32 * major + 24, arg]
  else if arg < 65536 then .ok ([32 * major + 25] ++ beBytes 2 arg)
  else if arg < 4294967296 then .ok ([32 * major + 26] ++ beBytes 4 arg)
  else if arg < 18446744073709551616 then .ok ([32 * major + 27] ++ beBytes 8 arg)
  else .error "length out of range"

/-- Take exactly `k` bytes from the stream. -/
def readBytes (k : Nat) (l : List Nat) : Except String (List Nat × List Nat) :=
  if l.length < k then .error "unexpected end of input"
  else .ok (l.take k, l.drop k)

/-- Decode a CBOR head: major type, argument, and remaining bytes. -/
def decodeHead : List Nat → Except String (Nat × Nat × List Nat)
  | [] => .error "unexpected end of input"
  | b :: rest =>
    if b % 32 < 24 then .ok (b / 32, b % 32, rest)
    else if b % 32 = 24 then
      match rest with
      | [] => .error "unexpected end of input"
      | a :: r => .ok (b / 32, a, r)
    else if b % 32 = 25 then
      match readBytes 2 rest with
      | .error e => .error e
      | .ok (bs, r) => .ok (b / 32, fromBE bs, r)
    else if b % 32 = 26 then
      match readBytes 4 rest with
      | .error e => .error e
      | .ok (bs, r) => .ok (b / 32, fromBE bs, r)
    else if b % 32 = 27 then
      match readBytes 8 rest with
      | .error e => .error e
      | .ok (bs, r) => .ok (b / 32, fromBE bs, r)
    else .error "unsupported additional information"

/-- Interleave the keys and values of a map. -/
def flatPairs : List (CborValue × CborValue) → List CborValue
  | [] => []
  | (k, v) :: rest => k :: v :: flatPairs rest

/-- Re-pair a flat key/value item list. -/
def pairUp : List CborValue → List (CborValue × CborValue)
  | k :: v :: rest => (k, v) :: pairUp rest
  | _ => []

/-- Encode one CBOR item (`cbor.Marshal`); `encOne.encList` encodes an item
sequence and `encOne.encPairs` the key/value sequence of a map. -/
def encOne : CborValue → Except String (List Nat)
  | .uint a => encodeHead 0 a
  | .nint a => encodeHead 1 a
  | .bstr bs =>
    match encodeHead 2 bs.length with
    | .error e => .error e
    | .ok h => .ok (h ++ bs)
  | .tstr ts =>
    match encodeHead 3 ts.length with
    | .error e => .error e
    | .ok h => .ok (h ++ ts)
  | .arr ws =>
    match encodeHead 4 ws.length with
    | .error e => .error e
    | .ok h =>
      match encList ws with
      | .error e => .error e
      | .ok bw => .ok (h ++ bw)
  | .map kvs =>
    match encodeHead 5 kvs.length with
    | .error e => .error e
    | .ok h =>
      match encPairs kvs with
      | .error e => .error e
      | .ok bw => .ok (h ++ bw)
  | .bool b => .ok [if b then 245 else 244]
where
  encList : List CborValue → Except String (List Nat)
    | [] => .ok []
    | v :: vs =>
      match encOne v with
      | .error e => .error e
      | .ok bv =>
        match encList vs with
        | .error e => .error e
        | .ok br => .ok (bv ++ br)
  encPairs : List (CborValue × CborValue) → Except String (List Nat)
    | [] => .ok []
    | (k, v) :: kvs =>
      match encOne k with
      | .error e => .error e
      | .ok bk =>
        match encOne v with
        | .error e => .error e
        | .ok bv =>
          match encPairs kvs with
          | .error e => .error e
          | .ok br => .ok (bk ++ bv ++ br)

/-- `cbor.Marshal` of a single value. -/
def cborMarshal (v : CborValue) : Except String (List Nat) := encOne v

/-- Decode `n` CBOR items from the stream.  The fuel bounds the recursion;
`b.length + 1` always suffices because every recursive call strictly
consumes input. -/
def decodeItems : Nat → Nat → List Nat → Except String (List CborValue × List Nat)
  | _, 0, b => .ok ([], b)
  | 0, _ + 1, _ => .error "unexpected end of input"
  | fuel + 1, n + 1, b =>
    match decodeHead b with
    | .error e => .error e
    | .ok (m, a, r) =>
      match
        (match m with
         | 0 => .ok (CborValue.uint a, r)
         | 1 => .ok (CborValue.nint a, r)
         | 2 =>
           match readBytes a r with
           | .error e => .error e
           | .ok (bs, r2) => .ok (CborValue.bstr bs, r2)
         | 3 =>
           match readBytes a r with
           | .error e => .error e
           | .ok (ts, r2) => .ok (CborValue.tstr ts, r2)
         | 4 =>
           match decodeItems fuel a r with
           | .error e => .error e
           | .ok (ws, r2) => .ok (CborValue.arr ws, r2)
         | 5 =>
           match decodeItems fuel (a + a) r with
           | .error e => .error e
           | .ok (ws, r2) => .ok (CborValue.map (pairUp ws), r2)
         | 7 =>
           if a = 20 then .ok (CborValue.bool false, r)
           else if a = 21 then .ok (CborValue.bool true, r)
           else .error "unsupported simple value"
         | _ => .error "unsupported major type" :
           Except String (CborValue × List Nat)) with
      | .error e => .error e
      | .ok (v, r2) =>
        match decodeItems fuel n r2 with
        | .error e => .error e
        | .ok (vs, r3) => .ok (v :: vs, r3)

/-- `cbor.Unmarshal` of a single value, returning the trailing bytes. -/
def cborDecodeOne (b : List Nat) : Except String (CborValue × List Nat) :=
  match decodeItems (b.length + 1) 1 b with
  | .error e => .error e
  | .ok ([v], r) => .ok (v, r)
  | .ok _ => .error "unexpected item count"

/-! ### Codec round-trip lemmas -/

/-- A COSE label: an `int64` or a string (UTF-8 bytes). -/
structure Label where
  Int64 : Int
  Str : List Nat
deriving DecidableEq

/-- A well-formed (canonical) label, as produced by unmarshaling an integer
key: non-zero `Int64` and empty `Str`. -/
def WfLabel (l : Label) : Prop := l.Int64 ≠ 0 ∧ l.Str = []

/-- CBOR encoding of an `int64` value. -/
def intToCbor (i : Int) : CborValue :=
  if 0 ≤ i then .uint i.toNat else .nint (-(i + 1)).toNat

/-- `Label.MarshalCBOR`. -/
def labelMarshalCBOR (l : Label) : Except String (List Nat) :=
  if l.Int64 ≠ 0 then cborMarshal (intToCbor l.Int64)
  else .error "cbor: unsupported type: func() string"

/-- `Label.UnmarshalCBOR` on an already-decoded item. -/
def labelOfCbor : CborValue → Except String Label
  | .uint n => .ok ⟨Int.ofNat n, []⟩
  | .nint n => .ok ⟨-(Int.ofNat n) - 1, []⟩
  | .tstr ts => .ok ⟨0, ts⟩
  | _ => .error "unexpected label type"

/-- `HeaderMap = map[Label]any` as an association list. -/
abbrev HeaderMap := List (Label × CborValue)

/-- `newRawHeaderMap`: marshal every value of the map. -/
def newRawHeaderMap : HeaderMap → Except String (List (Label × List Nat))
  | [] => .ok []
  | (l, v) :: rest =>
    match cborMarshal v with
    | .error e => .error e
    | .ok vb =>
      match newRawHeaderMap rest with
      | .error e => .error e
      | .ok rm => .ok ((l, vb) :: rm)

/-- The entry bytes of a CBOR map of `Label` keys and raw values. -/
def encodeMapEntries : List (Label × List Nat) → Except String (List Nat)
  | [] => .ok []
  | (l, raw) :: rest =>
    match labelMarshalCBOR l with
    | .error e => .error e
    | .ok lb =>
      match encodeMapEntries rest with
      | .error e => .error e
      | .ok eb => .ok (lb ++ raw ++ eb)

/-- `cbor.Marshal` of a `rawHeaderMap` (map head plus entries). -/
def rawHeaderMapEncode (rm : List (Label × List Nat)) : Except String (List Nat) :=
  match encodeHead 5 rm.length with
  | .error e => .error e
  | .ok hb =>
    match encodeMapEntries rm with
    | .error e => .error e
    | .ok eb => .ok (hb ++ eb)

/-- `omitEmpty.MarshalCBOR`: a single-byte encoding of a zero value (zero,
empty byte/text string, empty array, empty map) becomes zero bytes. -/
def omitEmptyMarshal (b : List Nat) : List Nat :=
  if b.length ≠ 1 then b
  else match b with
    | [b0] => if b0 = 0 ∨ b0 = 64 ∨ b0 = 96 ∨ b0 = 128 ∨ b0 = 160 then [] else b
    | _ => b

/-- `cbor.Bstr` wrapping: the content becomes the payload of a byte string. -/
def bstrWrap (content : List Nat) : Except String (List Nat) :=
  match encodeHead 2 content.length with
  | .error e => .error e
  | .ok hb => .ok (hb ++ content)

/-- `Header.MarshalCBOR`: a 2-array (the `cborHeader` struct) of the
`Bstr`-wrapped, `omitEmpty`-collapsed protected map and the plainly encoded
unprotected map.  `130` is the head of a 2-element array. -/
def headerMarshalCBOR (pm um : HeaderMap) : Except String (List Nat) :=
  match newRawHeaderMap pm with
  | .error e => .error e
  | .ok prm =>
    match rawHeaderMapEncode prm with
    | .error e => .error e
    | .ok pb =>
      match bstrWrap (omitEmptyMarshal pb) with
      | .error e => .error e
      | .ok pw =>
        match newRawHeaderMap um with
        | .error e => .error e
        | .ok urm =>
          match rawHeaderMapEncode urm with
          | .error e => .error e
          | .ok ub => .ok (130 :: (pw ++ ub))

/-- Decode flat key/value items into a `HeaderMap` (each key via
`Label.UnmarshalCBOR`, each value via `cbor.Unmarshal` of its raw bytes). -/
def labelPairs : List (CborValue × CborValue) → Except String HeaderMap
  | [] => .ok []
  | (k, v) :: rest =>
    match labelOfCbor k with
    | .error e => .error e
    | .ok l =>
      match labelPairs rest with
      | .error e => .error e
      | .ok m => .ok ((l, v) :: m)

/-- Decode a CBOR map of labelled values, returning the trailing bytes. -/
def decodeHeaderMapBytes (b : List Nat) : Except String (HeaderMap × List Nat) :=
  match decodeHead b with
  | .error e => .error e
  | .ok (m, a, r) =>
    if m = 5 then
      match decodeItems (r.length + 1) (a + a) r with
      | .error e => .error e
      | .ok (vs, r2) =>
        match labelPairs (pairUp vs) with
        | .error e => .error e
        | .ok entries => .ok (entries, r2)
    else .error "expected map"

/-- `Header.UnmarshalCBOR`.  Modelled from the spec: a zero-length protected
byte string decodes to the empty protected map (the "serialized-or-empty
map" of §4.1); the `cbor` package realising this is not under src/. -/
def headerUnmarshalCBOR (b : List Nat) : Except String (HeaderMap × HeaderMap) :=
  match decodeHead b with
  | .error e => .error e
  | .ok (m, a, r) =>
    if m = 4 ∧ a = 2 then
      match decodeHead r with
      | .error e => .error e
      | .ok (m2, plen, r2) =>
        if m2 = 2 then
          match readBytes plen r2 with
          | .error e => .error e
          | .ok (content, r3) =>
            match
              (if content = [] then .ok []
               else
                 match decodeHeaderMapBytes content with
                 | .error e => .error e
                 | .ok (pmap, leftover) =>
                   if leftover = [] then .ok pmap
                   else .error "trailing bytes in protected header" :
               Except String HeaderMap) with
            | .error e => .error e
            | .ok pmap =>
              match decodeHeaderMapBytes r3 with
              | .error e => .error e
              | .ok (umap, _) => .ok (pmap, umap)
        else .error "expected byte string"
    else .error "expected 2-array"

/-! ### Header round-trip lemmas -/

/-- The CBOR key/value item list of a header map (labels as int items). -/
def toKVs (m : HeaderMap) : List (CborValue × CborValue) :=
  m.map (fun lv => (intToCbor lv.1.Int64, lv.2))

/-- The decoded body of a `begin` message (absent `size`/`name` fields
decode to their zero values). -/
structure BeginInfo where
  mime_type : String
  name : String
  size : Int
  deriving DecidableEq

/-- A message from the owner module to the device module, by key. -/
inductive OwnerMsg
  | activeMsg (b : Bool)
  | beginMsg (b : BeginInfo)
  | dataMsg (chunk : List Nat)
  | endMsg
  deriving DecidableEq

/-- A message from the device module to the owner module, by key. -/
inductive DevMsg
  | activeMsg (b : Bool)
  | readyMsg (b : Bool)
  | ackMsg (n : Int)
  | resultMsg (success : Bool)
  | errMsg (code : Int) (message : String)
  deriving DecidableEq

/-- Device-side `Payload` module state (`Handler` kept as a presence flag;
`buffer` as its byte content). -/
structure Payload where
  hasHandler : Bool
  Active : Bool
  receiving : Bool
  totalBytes : Int
  expectedSize : Int
  buffer : List Nat
  deriving DecidableEq

/-- Observable calls made on the device's `PayloadHandler`. -/
structure HandlerState where
  delivered : List (List Nat)
  cancels : Nat
  deriving DecidableEq

/-- `Payload.reset`: cancel an in-progress transfer and zero the state. -/
def Payload.reset (p : Payload) (hs : HandlerState) : Payload × HandlerState :=
  (⟨p.hasHandler, p.Active, false, 0, 0, []⟩,
   if p.receiving && p.hasHandler then ⟨hs.delivered, hs.cancels + 1⟩ else hs)

/-- `Payload.receive`: process one incoming message, returning the new
module and handler states, the responses sent, and the error result. -/
def Payload.receiveMsg (p : Payload) (hs : HandlerState) :
    OwnerMsg → Payload × HandlerState × List DevMsg × Option String
  | .activeMsg _ => (p, hs, [.activeMsg p.Active], none)
  | .beginMsg b =>
    if !p.hasHandler then
      (p, hs, [.errMsg 4 "No payload handler configured"],
       some "payload error: No payload handler configured")
    else
      (⟨p.hasHandler, p.Active, true, 0, b.size, []⟩, hs, [.readyMsg true], none)
  | .dataMsg chunk =>
    if !p.receiving then
      (p, hs, [.errMsg 6 "Not ready to receive data"],
       some "payload error: Not ready to receive data")
    else
      (⟨p.hasHandler, p.Active, p.receiving, p.totalBytes + chunk.length,
         p.expectedSize, p.buffer⟩,
       ⟨hs.delivered ++ [chunk], hs.cancels⟩,
       [.ackMsg (p.totalBytes + chunk.length)], none)
  | .endMsg =>
    if !p.receiving then
      (p, hs, [.errMsg 6 "No active transfer"],
       some "payload error: No active transfer")
    else if p.expectedSize > 0 ∧ p.totalBytes ≠ p.expectedSize then
      (⟨p.hasHandler, p.Active, false, p.totalBytes, p.expectedSize, p.buffer⟩,
       hs, [.errMsg 6 "Size mismatch"], some "payload error: Size mismatch")
    else
      (⟨p.hasHandler, p.Active, false, p.totalBytes, p.expectedSize, p.buffer⟩,
       hs, [.resultMsg true], none)

/-- `Payload.Receive`: the `DeviceModule` entry point resets the module
whenever the inner `receive` fails. -/
def Payload.Receive (p : Payload) (hs : HandlerState) (msg : OwnerMsg) :
    Payload × HandlerState × List DevMsg × Option String :=
  match p.receiveMsg hs msg with
  | (p2, hs2, out, some e) =>
    match p2.reset hs2 with
    | (p3, hs3) => (p3, hs3, out, some e)
  | (p2, hs2, out, none) => (p2, hs2, out, none)

/-- `Payload.Transition`: leaving the module resets it. -/
def Payload.Transition (p : Payload) (hs : HandlerState) (active : Bool) :
    Payload × HandlerState :=
  if active then (p, hs) else p.reset hs

/-- `PayloadToSend` (metadata omitted: it does not affect the byte flow). -/
structure PayloadToSend where
  MimeType : String
  Name : String
  Data : List Nat
  deriving DecidableEq

/-- Owner-side `PayloadOwner` module state. -/
structure PayloadOwner where
  payloads : List PayloadToSend
  currentPayload : Option PayloadToSend
  currentIndex : Nat
  bytesSent : Int
  chunkSize : Int
  waitingForAck : Bool
  lastError : Option (Int × String)
  deriving DecidableEq

/-- `PayloadOwner.produceInfo`: one production step, returning the new
state, the messages written, and the `(blockPeer, moduleDone)` flags. -/
def PayloadOwner.produceInfo (p : PayloadOwner) :
    PayloadOwner × List OwnerMsg × Bool × Bool :=
  if p.waitingForAck then (p, [], true, false)
  else
    match p.currentPayload with
    | none =>
      match p.payloads[p.currentIndex]? with
      | none => (p, [], false, true)
      | some pl =>
        (⟨p.payloads, some pl, p.currentIndex, 0,
           if p.chunkSize = 0 then 4096 else p.chunkSize,
           p.waitingForAck, p.lastError⟩,
         [.beginMsg ⟨pl.MimeType, pl.Name,
            if pl.Data.length > 0 then (pl.Data.length : Int) else 0⟩],
         false, false)
    | some pl =>
      if p.bytesSent < (pl.Data.length : Int) then
        (⟨p.payloads, p.currentPayload, p.currentIndex,
           p.bytesSent + min p.chunkSize ((pl.Data.length : Int) - p.bytesSent),
           p.chunkSize, true, p.lastError⟩,
         [.dataMsg ((pl.Data.drop p.bytesSent.toNat).take
            (min p.chunkSize ((pl.Data.length : Int) - p.bytesSent)).toNat)],
         false, false)
      else (p, [.endMsg], false, false)

/-- `PayloadOwner.receive`: process one device response. -/
def PayloadOwner.receiveMsg (p : PayloadOwner) :
    DevMsg → PayloadOwner × Option String
  | .activeMsg _ => (p, none)
  | .readyMsg ready =>
    if ready then (p, none) else (p, some "device not ready for payload")
  | .ackMsg n =>
    if n = p.bytesSent then
      (⟨p.payloads, p.currentPayload, p.currentIndex, p.bytesSent,
         p.chunkSize, false, p.lastError⟩, none)
    else
      (⟨p.payloads, p.currentPayload, p.currentIndex, p.bytesSent,
         p.chunkSize, false, p.lastError⟩, some "ack mismatch")
  | .resultMsg _ =>
    (⟨p.payloads, none, p.currentIndex + 1, 0, p.chunkSize,
       p.waitingForAck, p.lastError⟩, none)
  | .errMsg code message =>
    (⟨p.payloads, none, p.currentIndex, 0, p.chunkSize, p.waitingForAck,
       some (code, message)⟩, some "payload error")

/-- Deliver one owner message to the device and feed every device response
back to the owner, keeping the first owner-side error. -/
def deliverToDevice (ow : PayloadOwner) (dev : Payload) (hs : HandlerState)
    (msg : OwnerMsg) : PayloadOwner × Payload × HandlerState × Option String :=
  match dev.Receive hs msg with
  | (dev2, hs2, responses, _) =>
    match responses.foldl (fun acc r =>
        match acc with
        | (o, e) =>
          match o.receiveMsg r with
          | (o2, e2) => (o2, if e.isSome then e else e2)) (ow, none) with
    | (ow2, err) => (ow2, dev2, hs2, err)

/-- The synchronous exchange driver: each round is one `produceInfo` call
whose message (if any) is handled to completion by the device, with the
device responses handled by the owner, until `moduleDone`. -/
def runPayload : Nat → PayloadOwner → Payload → HandlerState →
    List OwnerMsg → PayloadOwner × Payload × HandlerState × List OwnerMsg × Bool
  | 0, ow, dev, hs, tr => (ow, dev, hs, tr, false)
  | fuel + 1, ow, dev, hs, tr =>
    match ow.produceInfo with
    | (ow2, [], _, true) => (ow2, dev, hs, tr, true)
    | (ow2, [], _, false) => (ow2, dev, hs, tr, false)
    | (ow2, msg :: _, _, _) =>
      match deliverToDevice ow2 dev hs msg with
      | (ow3, dev2, hs2, _) => runPayload fuel ow3 dev2 hs2 (tr ++ [msg])

/-- Split a byte list into chunks of `c` bytes (the last possibly short). -/
def chunksOfAux : Nat → Nat → List Nat → List (List Nat)
  | 0, _, _ => []
  | _, _, [] => []
  | fuel + 1, c, l => l.take c :: chunksOfAux fuel c (l.drop c)

def chunksOf (c : Nat) (l : List Nat) : List (List Nat) :=
  chunksOfAux l.length c l

/-! ## Concrete certificates used as witnesses and counterexamples -/

/-- A single self-signed certificate whose `IdentifierConstraints` extension
is the concrete name `DNS:a.dom` and which carries the `onboard` function
OID. -/
def certRootScoped : Cert :=
  { subjectCN := "leaf", issuerCN := "leaf", isCA := false, basicConstraintsValid := true
    kuDigitalSignature := true, kuCertSign := false
    extensions := [(OID_IdentifierConstraints, "DNS:a.dom"), (OID_delegateOnboard, "")]
    pubKey := 1, signedBy := 1 }

/-- A leaf certificate with `Identifier` `DNS:a.dom`, signed by
`certChainRoot`. -/
def certChainLeaf : Cert :=
  { subjectCN := "leaf", issuerCN := "root", isCA := false, basicConstraintsValid := true
    kuDigitalSignature := true, kuCertSign := false
    extensions := [(OID_Identifier, "DNS:a.dom"), (OID_delegateOnboard, "")]
    pubKey := 1, signedBy := 2 }

/-- A self-signed CA root with `IdentifierConstraints` `DNS:*.dom`. -/
def certChainRoot : Cert :=
  { subjectCN := "root", issuerCN := "root", isCA := true, basicConstraintsValid := true
    kuDigitalSignature := true, kuCertSign := true
    extensions := [(OID_IdentifierConstraints, "DNS:*.dom"), (OID_delegateOnboard, "")]
    pubKey := 2, signedBy := 2 }

/-! ## Claim theorems for the delegate sub-protocol -/

theorem globMatchAux_irrel :
    ∀ n m p s, p.length + s.length < n → p.length + s.length < m →
      globMatchAux n p s = globMatchAux m p s := by
  intro n
  induction n with
  | zero => intro m p s h _; omega
  | succ n ih =>
    intro m p s hn hm
    match m, hm with
    | Nat.succ m, hm =>
      match p, s with
      | [], [] => rfl
      | [], _ :: _ => rfl
      | a :: ps, [] =>
        simp only [globMatchAux]
        split
        · exact ih m ps []
            (by simp only [List.length_cons, List.length_nil] at hn ⊢; omega)
            (by simp only [List.length_cons, List.length_nil] at hm ⊢; omega)
        · rfl
      | a :: ps, c :: cs =>
        simp only [globMatchAux]
        split
        · rw [ih m ps (c :: cs)
              (by simp only [List.length_cons] at hn ⊢; omega)
              (by simp only [List.length_cons] at hm ⊢; omega),
            ih m (a :: ps) cs
              (by simp only [List.length_cons] at hn ⊢; omega)
              (by simp only [List.length_cons] at hm ⊢; omega)]
        · rw [ih m ps cs
              (by simp only [List.length_cons] at hn ⊢; omega)
              (by simp only [List.length_cons] at hm ⊢; omega)]

/-- Any sufficiently large fuel computes `globMatch`. -/
theorem globMatchAux_big (n : Nat) (p s : List Char) (h : p.length + s.length < n) :
    globMatchAux n p s = globMatch p s :=
  globMatchAux_irrel n (p.length + s.length + 1) p s h (by omega)

/-- One-step unfolding of `globMatchAux` at a `cons`/`nil` argument pair. -/
theorem globMatchAux_succ_cons_nil (n : Nat) (a : Char) (ps : List Char) :
    globMatchAux (Nat.succ n) (a :: ps) []
      = if a = '*' then globMatchAux n ps [] else false := rfl

/-- One-step unfolding of `globMatchAux` at a `cons`/`cons` argument pair. -/
theorem globMatchAux_succ_cons_cons (n : Nat) (a : Char) (ps : List Char)
    (c : Char) (cs : List Char) :
    globMatchAux (Nat.succ n) (a :: ps) (c :: cs)
      = if a = '*' then
          globMatchAux n ps (c :: cs)
            || (!(c == '\n') && globMatchAux n (a :: ps) cs)
        else (a == c) && globMatchAux n ps cs := rfl

theorem globMatch_nil_nil : globMatch [] [] = true := rfl

theorem globMatch_nil_cons (c : Char) (cs : List Char) :
    globMatch [] (c :: cs) = false := rfl

theorem globMatch_cons_nil {a : Char} (ps : List Char) (ha : a ≠ '*') :
    globMatch (a :: ps) [] = false := by
  show globMatchAux _ _ _ = false
  rw [show (a :: ps).length + ([] : List Char).length + 1
        = Nat.succ (ps.length + 1) by simp]
  rw [globMatchAux_succ_cons_nil, if_neg ha]

theorem globMatch_star_nil (ps : List Char) :
    globMatch ('*' :: ps) [] = globMatch ps [] := by
  show globMatchAux _ _ _ = _
  rw [show ('*' :: ps).length + ([] : List Char).length + 1
        = Nat.succ (ps.length + 1) by simp]
  rw [globMatchAux_succ_cons_nil, if_pos rfl]
  exact globMatchAux_big _ _ _ (by simp)

theorem globMatch_star_cons (ps : List Char) (c : Char) (cs : List Char) :
    globMatch ('*' :: ps) (c :: cs)
      = (globMatch ps (c :: cs)
          || (!(c == '\n') && globMatch ('*' :: ps) cs)) := by
  show globMatchAux _ _ _ = _
  rw [show ('*' :: ps).length + (c :: cs).length + 1
        = Nat.succ (ps.length + cs.length + 2) by
          simp only [List.length_cons]; omega]
  rw [globMatchAux_succ_cons_cons, if_pos rfl]
  rw [globMatchAux_big _ _ _ (by simp only [List.length_cons]; omega),
    globMatchAux_big _ _ _ (by simp only [List.length_cons]; omega)]

theorem globMatch_cons_cons {a : Char} (ps : List Char) (c : Char) (cs : List Char)
    (ha : a ≠ '*') :
    globMatch (a :: ps) (c :: cs) = ((a == c) && globMatch ps cs) := by
  show globMatchAux _ _ _ = _
  rw [show (a :: ps).length + (c :: cs).length + 1
        = Nat.succ (ps.length + cs.length + 2) by
          simp only [List.length_cons]; omega]
  rw [globMatchAux_succ_cons_cons, if_neg ha]
  rw [globMatchAux_big _ _ _ (by omega)]

/-- If the rest of the pattern matches, a preceding `*` may match nothing. -/
theorem globMatch_star_intro (ps s : List Char) (h : globMatch ps s = true) :
    globMatch ('*' :: ps) s = true := by
  cases s with
  | nil => rw [globMatch_star_nil]; exact h
  | cons c cs => rw [globMatch_star_cons]; simp [h]

/-- A `*` already matching a string also matches it with one more leading
non-newline character. -/
theorem globMatch_star_absorb (ps : List Char) (c : Char) (cs : List Char)
    (hc : c ≠ '\n') (h : globMatch ('*' :: ps) cs = true) :
    globMatch ('*' :: ps) (c :: cs) = true := by
  rw [globMatch_star_cons]; simp [h, hc]

/-- Every pattern matches itself (each `*` of the pattern matches the literal
`*` of the string). -/
theorem globMatch_self (p : List Char) : globMatch p p = true := by
  induction p with
  | nil => rfl
  | cons a ps ih =>
    by_cases ha : a = '*'
    · subst ha
      exact globMatch_star_absorb ps '*' ps (by decide)
        (globMatch_star_intro ps ps ih)
    · rw [globMatch_cons_cons ps a ps ha]
      simp [ih]

/-- A leading `*` absorbs an arbitrary newline-free prefix. -/
theorem globMatch_star_prepend (q : List Char) (m t : List Char)
    (hm : ∀ x ∈ m, x ≠ '\n')
    (h : globMatch q t = true) : globMatch ('*' :: q) (m ++ t) = true := by
  induction m with
  | nil => exact globMatch_star_intro q t h
  | cons c m ih =>
    exact globMatch_star_absorb q c (m ++ t) (hm c (List.mem_cons_self c m))
      (ih (fun x hx => hm x (List.mem_cons_of_mem c hx)))

/-- A `*` between two patterns matches any newline-free character sequence
between two matched strings: this is the "wildcard matches any sequence of
non-newline characters within its segment" law. -/
theorem globMatch_star_append :
    ∀ k p s, p.length + s.length ≤ k → ∀ q m t, (∀ x ∈ m, x ≠ '\n') →
      globMatch p s = true → globMatch q t = true →
      globMatch (p ++ '*' :: q) (s ++ m ++ t) = true := by
  intro k
  induction k with
  | zero =>
    intro p s hk q m t hm hp hq
    rcases p with _ | ⟨a, ps⟩
    · rcases s with _ | ⟨c, cs⟩
      · simpa using globMatch_star_prepend q m t hm hq
      · simp only [List.length_cons, List.length_nil] at hk; omega
    · simp only [List.length_cons] at hk; omega
  | succ k ih =>
    intro p s hk q m t hm hp hq
    cases p with
    | nil =>
      cases s with
      | nil => simpa using globMatch_star_prepend q m t hm hq
      | cons c cs => rw [globMatch_nil_cons] at hp; cases hp
    | cons a ps =>
      by_cases ha : a = '*'
      · subst ha
        cases s with
        | nil =>
          rw [globMatch_star_nil] at hp
          have := ih ps [] (by simp only [List.length_cons] at hk ⊢; omega)
            q m t hm hp hq
          simp only [List.nil_append] at this ⊢
          exact globMatch_star_intro _ _ this
        | cons c cs =>
          rw [globMatch_star_cons] at hp
          simp only [Bool.or_eq_true, Bool.and_eq_true, Bool.not_eq_true',
            beq_eq_false_iff_ne] at hp
          rcases hp with hp | ⟨hcn, hp⟩
          · have := ih ps (c :: cs)
              (by simp only [List.length_cons] at hk ⊢; omega) q m t hm hp hq
            exact globMatch_star_intro _ _ this
          · have := ih ('*' :: ps) cs
              (by simp only [List.length_cons] at hk ⊢; omega) q m t hm hp hq
            simp only [List.cons_append, List.append_assoc] at this ⊢
            exact globMatch_star_absorb _ c _ hcn this
      · cases s with
        | nil => rw [globMatch_cons_nil ps ha] at hp; cases hp
        | cons c cs =>
          rw [globMatch_cons_cons ps c cs ha] at hp
          simp only [Bool.and_eq_true, beq_iff_eq] at hp
          obtain ⟨rfl, hp⟩ := hp
          have := ih ps cs (by simp only [List.length_cons] at hk ⊢; omega)
            q m t hm hp hq
          simp only [List.cons_append, List.append_assoc] at this ⊢
          rw [globMatch_cons_cons _ a _ ha]
          simp [this]

/-- Glob matching is transitive: if the string `b` (its `*` characters taken
literally) matches the pattern `c`, then anything matching pattern `b` also
matches pattern `c`. -/
theorem globMatch_trans :
    ∀ k c b a, c.length + b.length + a.length ≤ k →
      globMatch c b = true → globMatch b a = true → globMatch c a = true := by
  intro k
  induction k with
  | zero =>
    intro c b a hk hcb hba
    rcases c with _ | ⟨γ, cs⟩
    · rcases b with _ | ⟨β, bs⟩
      · exact hba
      · simp only [List.length_cons, List.length_nil] at hk; omega
    · simp only [List.length_cons] at hk; omega
  | succ k ih =>
    intro c b a hk hcb hba
    cases c with
    | nil =>
      cases b with
      | nil => exact hba
      | cons β bs => rw [globMatch_nil_cons] at hcb; cases hcb
    | cons γ cs =>
      by_cases hγ : γ = '*'
      · subst hγ
        cases b with
        | nil =>
          rw [globMatch_star_nil] at hcb
          cases a with
          | nil => rwa [globMatch_star_nil]
          | cons α as => rw [globMatch_nil_cons] at hba; cases hba
        | cons β bs =>
          rw [globMatch_star_cons] at hcb
          simp only [Bool.or_eq_true, Bool.and_eq_true, Bool.not_eq_true',
            beq_eq_false_iff_ne] at hcb
          rcases hcb with hcb | ⟨hβn, hcb⟩
          · -- the star matched nothing of b
            have := ih cs (β :: bs) a
              (by simp only [List.length_cons] at hk ⊢; omega) hcb hba
            exact globMatch_star_intro _ _ this
          · -- the star absorbed β (β is not a newline)
            by_cases hβ : β = '*'
            · subst hβ
              cases a with
              | nil =>
                rw [globMatch_star_nil] at hba
                exact ih ('*' :: cs) bs []
                  (by simp only [List.length_cons] at hk ⊢; omega) hcb hba
              | cons α as =>
                rw [globMatch_star_cons] at hba
                simp only [Bool.or_eq_true, Bool.and_eq_true, Bool.not_eq_true',
                  beq_eq_false_iff_ne] at hba
                rcases hba with hba | ⟨hαn, hba⟩
                · have := ih ('*' :: cs) bs (α :: as)
                    (by simp only [List.length_cons] at hk ⊢; omega) hcb hba
                  exact this
                · have h1 : globMatch ('*' :: cs) ('*' :: bs) = true :=
                    globMatch_star_absorb cs '*' bs (by decide) hcb
                  have := ih ('*' :: cs) ('*' :: bs) as
                    (by simp only [List.length_cons] at hk ⊢; omega) h1 hba
                  exact globMatch_star_absorb cs α as hαn this
            · cases a with
              | nil => rw [globMatch_cons_nil bs hβ] at hba; cases hba
              | cons α as =>
                rw [globMatch_cons_cons bs α as hβ] at hba
                simp only [Bool.and_eq_true, beq_iff_eq] at hba
                obtain ⟨rfl, hba⟩ := hba
                have := ih ('*' :: cs) bs as
                  (by simp only [List.length_cons] at hk ⊢; omega) hcb hba
                exact globMatch_star_absorb cs β as hβn this
      · cases b with
        | nil => rw [globMatch_cons_nil cs hγ] at hcb; cases hcb
        | cons β bs =>
          rw [globMatch_cons_cons cs β bs hγ] at hcb
          simp only [Bool.and_eq_true, beq_iff_eq] at hcb
          obtain ⟨rfl, hcb⟩ := hcb
          cases a with
          | nil => rw [globMatch_cons_nil bs hγ] at hba; cases hba
          | cons α as =>
            rw [globMatch_cons_cons bs α as hγ] at hba
            simp only [Bool.and_eq_true, beq_iff_eq] at hba
            obtain ⟨rfl, hba⟩ := hba
            have := ih cs bs as
              (by simp only [List.length_cons] at hk ⊢; omega) hcb hba
            rw [globMatch_cons_cons cs γ as hγ]
            simp [this]

/-! ## Splitting and space stripping -/

theorem splitOnComma_ne_nil (l : List Char) : splitOnComma l ≠ [] := by
  cases l with
  | nil => simp [splitOnComma]
  | cons c cs =>
    simp only [splitOnComma]
    split
    · simp
    · split <;> simp

/-- Splitting distributes over a comma: `split (a ++ "," ++ b) = split a ++ split b`. -/
theorem splitOnComma_append (a b : List Char) :
    splitOnComma (a ++ ',' :: b) = splitOnComma a ++ splitOnComma b := by
  induction a with
  | nil => simp [splitOnComma]
  | cons c cs ih =>
    by_cases hc : c = ','
    · subst hc
      simp [splitOnComma, ih]
    · have hne := splitOnComma_ne_nil cs
      rcases h : splitOnComma cs with _ | ⟨t, ts⟩
      · exact absurd h hne
      · simp only [List.cons_append, splitOnComma, if_neg hc, List.append_eq]
        rw [ih, h]
        simp

/-- If `l` contains no comma then it is a single split term. -/
theorem splitOnComma_no_comma (l : List Char) (h : ¬ ',' ∈ l) :
    splitOnComma l = [l] := by
  induction l with
  | nil => rfl
  | cons c cs ih =>
    simp only [List.mem_cons, not_or] at h
    simp only [splitOnComma, if_neg (Ne.symm h.1)]
    rw [ih h.2]

/-! ## The two identifier predicates (`delegate.go`) -/

/-- `IsPermittedIdentifierRule` is transitive (used by the delegate-chain
walk: pairwise parent/child checks imply the leaf is permitted by every
ancestor). -/
theorem IsPermittedIdentifierRule_trans (a b c : String)
    (hab : IsPermittedIdentifierRule a b = true)
    (hbc : IsPermittedIdentifierRule b c = true) :
    IsPermittedIdentifierRule a c = true := by
  simp only [IsPermittedIdentifierRule, List.all_eq_true, List.any_eq_true] at *
  intro ta hta
  obtain ⟨tb, htb, hmatch⟩ := hab ta hta
  obtain ⟨tc, htc, hmatch2⟩ := hbc tb htb
  exact ⟨tc, htc, globMatch_trans (tc.length + tb.length + ta.length) tc tb ta
    le_rfl hmatch2 hmatch⟩

/-! ## Delegate certificate chains (`delegate.go`)

Certificates are modelled by the fields `processDelegateChain` inspects.
Cryptographic signature checking (`x509.CheckSignatureFrom`) is abstracted
soundly: every certificate records the identifier of the key that signed it
(`signedBy`) and its own public key identifier (`pubKey`); a signature from
the parent verifies exactly when `child.signedBy = parent.pubKey`.
Extensions are `(OID, value)` pairs, with OIDs as numeric arcs exactly as in
the source. -/

theorem certStepTail_ok_inv {oid : Option OID} {isFirst : Bool} {c : Cert}
    {nextStr n' : String} (h : certStepTail oid isFirst c nextStr = .ok n') :
    n' = nextStr ∧
    (∀ o, oid = some o → certMissingOID c o = false) ∧
    c.kuDigitalSignature = true ∧
    c.basicConstraintsValid = true ∧
    (isFirst = false → c.isCA = true ∧ c.kuCertSign = true) := by
  unfold certStepTail at h
  split at h
  · exact Except.noConfusion h
  split at h
  · exact Except.noConfusion h
  split at h
  · exact Except.noConfusion h
  split at h
  · exact Except.noConfusion h
  split at h
  · exact Except.noConfusion h
  injection h with h
  rename_i h1 h2 h3 h4 h5
  refine ⟨h.symm, ?_, ?_, ?_, ?_⟩
  · intro o ho; subst ho; simpa using h1
  · simpa using h2
  · simpa using h3
  · intro hf
    constructor
    · by_contra hca
      exact h4 ⟨hf, by simpa using hca⟩
    · by_contra hcs
      exact h5 ⟨hf, by simpa using hcs⟩

theorem certStep_ok_inv {oid : Option OID} {isFirst : Bool} {constrs : String}
    {c : Cert} {next? : Option Cert} {prevOwner n' : String}
    (h : certStep oid isFirst constrs c next? prevOwner = .ok n') :
    n' = constrs ∧
    (constrs ≠ "" → prevOwner ≠ "" → IsPermittedIdentifierRule prevOwner constrs = true) ∧
    (isFirst = false → prevOwner = "" → constrs = "") ∧
    (∀ nxt, next? = some nxt →
      checkSignatureFrom c nxt = true ∧ c.issuerCN = nxt.subjectCN) ∧
    (∀ o, oid = some o → certMissingOID c o = false) ∧
    c.kuDigitalSignature = true ∧
    c.basicConstraintsValid = true ∧
    (isFirst = false → c.isCA = true ∧ c.kuCertSign = true) := by
  unfold certStep at h
  split at h
  · exact Except.noConfusion h
  rename_i hrule
  split at h
  · exact Except.noConfusion h
  rename_i hnamed
  have hconstr : constrs ≠ "" → prevOwner ≠ "" →
      IsPermittedIdentifierRule prevOwner constrs = true := by
    intro hc1 hc2
    by_contra hr
    exact hrule ⟨hc1, hc2, by simpa using hr⟩
  have hnostr : isFirst = false → prevOwner = "" → constrs = "" := by
    intro hf hp
    by_contra hcne
    exact hnamed ⟨hf, hp, hcne⟩
  cases next? with
  | none =>
    replace h : certStepTail oid isFirst c constrs = .ok n' := h
    have ht := certStepTail_ok_inv h
    exact ⟨ht.1, hconstr, hnostr, by intro nxt hx; exact Option.noConfusion hx,
      ht.2.1, ht.2.2.1, ht.2.2.2.1, ht.2.2.2.2⟩
  | some nxt =>
    replace h : (if checkSignatureFrom c nxt = false then
        (.error "VerifyDelegate Chain Validation error - not signed by next" :
          Except String String)
      else if c.issuerCN ≠ nxt.subjectCN then
        .error "Subject issued by unexpected issuer"
      else certStepTail oid isFirst c constrs) = .ok n' := h
    split at h
    · exact Except.noConfusion h
    split at h
    · exact Except.noConfusion h
    rename_i hsig hiss
    have ht := certStepTail_ok_inv h
    refine ⟨ht.1, hconstr, hnostr, ?_, ht.2.1, ht.2.2.1, ht.2.2.2.1, ht.2.2.2.2⟩
    intro nxt2 hx
    injection hx with hx
    subst hx
    constructor
    · by_contra hs; exact hsig (by simpa using hs)
    · by_contra hi; exact hiss hi

/-- Every certificate visited by a successful `delegateLoop` carries the
requested function OID. -/
theorem delegateLoop_oid {oid : Option OID} :
    ∀ (l : List Cert) (isFirst : Bool) (prev : String),
      delegateLoop oid isFirst prev l = .ok () →
      ∀ c ∈ l, ∀ o, oid = some o → certMissingOID c o = false := by
  intro l
  induction l with
  | nil => intro _ _ _ c hc; cases hc
  | cons c rest ih =>
    intro isFirst prev h cc hcc o ho
    unfold delegateLoop at h
    split at h
    · exact Except.noConfusion h
    rename_i nextStr hstep
    rcases List.mem_cons.mp hcc with rfl | hmem
    · exact (certStep_ok_inv hstep).2.2.2.2.1 o ho
    · exact ih false nextStr h cc hmem o ho

/-- In a successful non-leaf walk, every certificate that declares
`IdentifierConstraints` is entered with a non-empty `prevOwner` that it
permits; by transitivity the initial `prevOwner` permits them all. -/
theorem delegateLoop_constraints :
    ∀ (l : List Cert) (oid : Option OID) (prev : String),
      delegateLoop oid false prev l = .ok () →
      ∀ c ∈ l, getIdentConstraints c ≠ "" →
        prev ≠ "" ∧ IsPermittedIdentifierRule prev (getIdentConstraints c) = true := by
  intro l
  induction l with
  | nil => intro _ _ _ c hc; cases hc
  | cons c rest ih =>
    intro oid prev h cc hcc hconstr
    unfold delegateLoop at h
    split at h
    · exact Except.noConfusion h
    rename_i nextStr hstep
    rw [if_neg (by simp)] at hstep
    have inv := certStep_ok_inv hstep
    rcases List.mem_cons.mp hcc with rfl | hmem
    · -- the certificate under scrutiny is the head
      have hprev : prev ≠ "" := by
        intro hp
        exact hconstr (inv.2.2.1 rfl hp)
      exact ⟨hprev, inv.2.1 hconstr hprev⟩
    · -- deeper in the list: go through the head's nextStr
      have hrec := ih oid nextStr h cc hmem hconstr
      by_cases hc0 : getIdentConstraints c = ""
      · -- head had no constraints, so nextStr = "" — contradiction with hrec
        rw [inv.1, hc0] at hrec
        exact absurd rfl hrec.1
      · have hprev : prev ≠ "" := by
          intro hp
          exact hc0 (inv.2.2.1 rfl hp)
        have hrule := inv.2.1 hc0 hprev
        rw [inv.1] at hrec
        exact ⟨hprev, IsPermittedIdentifierRule_trans prev (getIdentConstraints c)
          (getIdentConstraints cc) hrule hrec.2⟩

/-- A successful `extendWithOwnerRoot` only ever appends to the chain. -/
theorem extendWithOwnerRoot_ok {chain : List Cert} {K : Option OwnerKey}
    {arr : List OID} {chain2 : List Cert}
    (h : extendWithOwnerRoot chain K arr = .ok chain2) :
    ∃ suffix, chain2 = chain ++ suffix := by
  unfold extendWithOwnerRoot at h
  cases K with
  | none => injection h with h; exact ⟨[], by rw [← h]; simp⟩
  | some k =>
    rcases k with ⟨pub, kind⟩
    cases kind with
    | ecdsa => injection h with h; exact ⟨_, h.symm⟩
    | rsa => injection h with h; exact ⟨_, h.symm⟩
    | other => exact Except.noConfusion h

/-- Decomposition of a successful `processDelegateChain` run into its
phases. -/
theorem processDelegateChain_ok_inv {chain : List Cert} {K : Option OwnerKey}
    {oid : Option OID} {out : Bool} {N : Option String}
    (h : processDelegateChain chain K oid out N = .ok ()) :
    chain ≠ [] ∧
    ∃ chain2, extendWithOwnerRoot chain K (oidArrayOf oid) = .ok chain2 ∧
      delegateLoop oid true "" chain2 = .ok () ∧
      rootNamedOwnerCheck chain2 N = .ok () := by
  unfold processDelegateChain at h
  split at h
  · exact Except.noConfusion h
  rename_i hlen
  have hne : chain ≠ [] := by
    intro hnil
    subst hnil
    exact hlen rfl
  split at h
  · exact Except.noConfusion h
  rename_i chain2 hext
  split at h
  · exact Except.noConfusion h
  rename_i u hloop
  cases u
  exact ⟨hne, chain2, hext, hloop, h⟩

/-- Inversion of the final named-owner check. -/
theorem rootNamedOwnerCheck_ok_inv {chain2 : List Cert} {n : String}
    (h : rootNamedOwnerCheck chain2 (some n) = .ok ())
    (hne : rootIdentScan (chain2.getLastD defaultCert) ≠ "") :
    IsPermittedIdentifierRule (rootIdentScan (chain2.getLastD defaultCert)) n = true := by
  unfold rootNamedOwnerCheck at h
  replace h : (if rootIdentScan (chain2.getLastD defaultCert) ≠ "" then
      if IsPermittedIdentifierRule (rootIdentScan (chain2.getLastD defaultCert)) n = false then
        (.error "Chain scoped to namedIdentifier, but root only scoped differently" :
          Except String Unit)
      else .ok ()
    else .ok ()) = .ok () := h
  rw [if_pos hne] at h
  split at h
  · exact Except.noConfusion h
  · rename_i hr
    simpa using hr

/-! ## Signature algorithm selection (`sigInfoFor` / `signOptsFor`)

The key universe contains the key types the specification's fixed mapping
speaks about: ECDSA P-256, ECDSA P-384, and RSA of a given modulus size in
bytes (`rsa.PublicKey.Size()`). -/

theorem length_beBytes (k n : Nat) : (beBytes k n).length = k := by
  induction k generalizing n with
  | zero => rfl
  | succ k ih => simp [beBytes, ih]

theorem fromBE_append_singleton (l : List Nat) (x : Nat) :
    fromBE (l ++ [x]) = fromBE l * 256 + x := by
  simp [fromBE, List.foldl_append]

theorem fromBE_beBytes (k n : Nat) (h : n < 256 ^ k) :
    fromBE (beBytes k n) = n := by
  induction k generalizing n with
  | zero =>
    interval_cases n
    rfl
  | succ k ih =>
    rw [beBytes, fromBE_append_singleton, ih (n / 256) ?_]
    · omega
    · have : 256 ^ (k + 1) = 256 ^ k * 256 := by ring
      omega

theorem readBytes_exact (l t : List Nat) :
    readBytes l.length (l ++ t) = .ok (l, t) := by
  unfold readBytes
  rw [if_neg (by simp)]
  rw [List.take_left, List.drop_left]

theorem encodeHead_ne_nil {m a : Nat} {h : List Nat} (he : encodeHead m a = .ok h) :
    h ≠ [] := by
  unfold encodeHead at he
  split at he
  · injection he with he; rw [← he]; simp
  split at he
  · injection he with he; rw [← he]; simp
  split at he
  · injection he with he; rw [← he]; simp
  split at he
  · injection he with he; rw [← he]; simp
  split at he
  · injection he with he; rw [← he]; simp
  · exact Except.noConfusion he

theorem readBytes_beBytes (k a : Nat) (t : List Nat) :
    readBytes k (beBytes k a ++ t) = .ok (beBytes k a, t) := by
  have h := readBytes_exact (beBytes k a) t
  rwa [length_beBytes] at h

/-- One-step unfolding of `decodeHead` on a non-empty stream. -/
theorem decodeHead_cons (b : Nat) (rest : List Nat) :
    decodeHead (b :: rest) =
      (if b % 32 < 24 then .ok (b / 32, b % 32, rest)
      else if b % 32 = 24 then
        match rest with
        | [] => .error "unexpected end of input"
        | a :: r => .ok (b / 32, a, r)
      else if b % 32 = 25 then
        match readBytes 2 rest with
        | .error e => .error e
        | .ok (bs, r) => .ok (b / 32, fromBE bs, r)
      else if b % 32 = 26 then
        match readBytes 4 rest with
        | .error e => .error e
        | .ok (bs, r) => .ok (b / 32, fromBE bs, r)
      else if b % 32 = 27 then
        match readBytes 8 rest with
        | .error e => .error e
        | .ok (bs, r) => .ok (b / 32, fromBE bs, r)
      else .error "unsupported additional information") := rfl

theorem decodeHead_encodeHead {m a : Nat} {h : List Nat}
    (he : encodeHead m a = .ok h) (t : List Nat) :
    decodeHead (h ++ t) = .ok (m, a, t) := by
  unfold encodeHead at he
  split at he
  · rename_i h1
    injection he with he
    subst he
    rw [show [32 * m + a] ++ t = (32 * m + a) :: t from rfl, decodeHead_cons]
    have e1 : (32 * m + a) % 32 = a := by omega
    have e2 : (32 * m + a) / 32 = m := by omega
    rw [e1, e2, if_pos h1]
  split at he
  · rename_i h1 h2
    injection he with he
    subst he
    rw [show [32 * m + 24, a] ++ t = (32 * m + 24) :: a :: t from rfl, decodeHead_cons]
    have e1 : (32 * m + 24) % 32 = 24 := by omega
    have e2 : (32 * m + 24) / 32 = m := by omega
    rw [e1, e2, if_neg (by omega), if_pos rfl]
  split at he
  · rename_i h1 h2 h3
    injection he with he
    subst he
    rw [List.append_assoc,
      show [32 * m + 25] ++ (beBytes 2 a ++ t) = (32 * m + 25) :: (beBytes 2 a ++ t)
        from rfl,
      decodeHead_cons]
    have e1 : (32 * m + 25) % 32 = 25 := by omega
    have e2 : (32 * m + 25) / 32 = m := by omega
    rw [e1, e2, if_neg (by omega), if_neg (by omega), if_pos rfl, readBytes_beBytes]
    show Except.ok (m, fromBE (beBytes 2 a), t) = Except.ok (m, a, t)
    rw [fromBE_beBytes 2 a (by norm_num; omega)]
  split at he
  · rename_i h1 h2 h3 h4
    injection he with he
    subst he
    rw [List.append_assoc,
      show [32 * m + 26] ++ (beBytes 4 a ++ t) = (32 * m + 26) :: (beBytes 4 a ++ t)
        from rfl,
      decodeHead_cons]
    have e1 : (32 * m + 26) % 32 = 26 := by omega
    have e2 : (32 * m + 26) / 32 = m := by omega
    rw [e1, e2, if_neg (by omega), if_neg (by omega), if_neg (by omega), if_pos rfl,
      readBytes_beBytes]
    show Except.ok (m, fromBE (beBytes 4 a), t) = Except.ok (m, a, t)
    rw [fromBE_beBytes 4 a (by norm_num; omega)]
  split at he
  · rename_i h1 h2 h3 h4 h5
    injection he with he
    subst he
    rw [List.append_assoc,
      show [32 * m + 27] ++ (beBytes 8 a ++ t) = (32 * m + 27) :: (beBytes 8 a ++ t)
        from rfl,
      decodeHead_cons]
    have e1 : (32 * m + 27) % 32 = 27 := by omega
    have e2 : (32 * m + 27) / 32 = m := by omega
    rw [e1, e2, if_neg (by omega), if_neg (by omega), if_neg (by omega),
      if_neg (by omega), if_pos rfl, readBytes_beBytes]
    show Except.ok (m, fromBE (beBytes 8 a), t) = Except.ok (m, a, t)
    rw [fromBE_beBytes 8 a (by norm_num; omega)]
  · exact Except.noConfusion he

theorem pairUp_flatPairs (kvs : List (CborValue × CborValue)) :
    pairUp (flatPairs kvs) = kvs := by
  induction kvs with
  | nil => rfl
  | cons kv rest ih =>
    rcases kv with ⟨k, v⟩
    simp [flatPairs, pairUp, ih]

theorem length_flatPairs (kvs : List (CborValue × CborValue)) :
    (flatPairs kvs).length = kvs.length + kvs.length := by
  induction kvs with
  | nil => rfl
  | cons kv rest ih =>
    rcases kv with ⟨k, v⟩
    simp [flatPairs, ih]
    omega

theorem encPairs_eq_encList_flatPairs (kvs : List (CborValue × CborValue)) :
    encOne.encPairs kvs = encOne.encList (flatPairs kvs) := by
  induction kvs with
  | nil => rfl
  | cons kv rest ih =>
    rcases kv with ⟨k, v⟩
    show (match encOne k with
      | Except.error e => Except.error e
      | Except.ok bk =>
        match encOne v with
        | Except.error e => Except.error e
        | Except.ok bv =>
          match encOne.encPairs rest with
          | Except.error e => Except.error e
          | Except.ok br => Except.ok (bk ++ bv ++ br)) =
      (match encOne k with
      | Except.error e => Except.error e
      | Except.ok bk =>
        match (match encOne v with
          | Except.error e => Except.error e
          | Except.ok bv =>
            match encOne.encList (flatPairs rest) with
            | Except.error e => Except.error e
            | Except.ok br => Except.ok (bv ++ br) :
          Except String (List Nat)) with
        | Except.error e => Except.error e
        | Except.ok br2 => Except.ok (bk ++ br2))
    rw [ih]
    rcases encOne k with e | bk
    · rfl
    rcases encOne v with e | bv
    · rfl
    rcases encOne.encList (flatPairs rest) with e | br
    · rfl
    · show Except.ok (bk ++ bv ++ br) = .ok (bk ++ (bv ++ br))
      rw [List.append_assoc]

/-- One-step unfolding of `decodeItems` at positive fuel and count. -/
theorem decodeItems_succ (fuel n : Nat) (b : List Nat) :
    decodeItems (fuel + 1) (n + 1) b =
      (match decodeHead b with
      | .error e => .error e
      | .ok (m, a, r) =>
        match
          (match m with
           | 0 => .ok (CborValue.uint a, r)
           | 1 => .ok (CborValue.nint a, r)
           | 2 =>
             match readBytes a r with
             | .error e => .error e
             | .ok (bs, r2) => .ok (CborValue.bstr bs, r2)
           | 3 =>
             match readBytes a r with
             | .error e => .error e
             | .ok (ts, r2) => .ok (CborValue.tstr ts, r2)
           | 4 =>
             match decodeItems fuel a r with
             | .error e => .error e
             | .ok (ws, r2) => .ok (CborValue.arr ws, r2)
           | 5 =>
             match decodeItems fuel (a + a) r with
             | .error e => .error e
             | .ok (ws, r2) => .ok (CborValue.map (pairUp ws), r2)
           | 7 =>
             if a = 20 then .ok (CborValue.bool false, r)
             else if a = 21 then .ok (CborValue.bool true, r)
             else .error "unsupported simple value"
           | _ => .error "unsupported major type" :
             Except String (CborValue × List Nat)) with
        | .error e => .error e
        | .ok (v, r2) =>
          match decodeItems fuel n r2 with
          | .error e => .error e
          | .ok (vs, r3) => .ok (v :: vs, r3)) := rfl

/-- A successful item encoding is never empty. -/
theorem encOne_ne_nil {v : CborValue} {bv : List Nat}
    (h : encOne v = .ok bv) : bv ≠ [] := by
  cases v with
  | uint a =>
    replace h : encodeHead 0 a = .ok bv := h
    exact encodeHead_ne_nil h
  | nint a =>
    replace h : encodeHead 1 a = .ok bv := h
    exact encodeHead_ne_nil h
  | bstr bs =>
    replace h : (match encodeHead 2 bs.length with
      | .error e => (.error e : Except String (List Nat))
      | .ok hb => .ok (hb ++ bs)) = .ok bv := h
    split at h
    · exact Except.noConfusion h
    · rename_i hb hh
      injection h with h
      rw [← h]
      exact fun hx => (encodeHead_ne_nil hh) (List.append_eq_nil.mp hx).1
  | tstr ts =>
    replace h : (match encodeHead 3 ts.length with
      | .error e => (.error e : Except String (List Nat))
      | .ok hb => .ok (hb ++ ts)) = .ok bv := h
    split at h
    · exact Except.noConfusion h
    · rename_i hb hh
      injection h with h
      rw [← h]
      exact fun hx => (encodeHead_ne_nil hh) (List.append_eq_nil.mp hx).1
  | arr ws =>
    replace h : (match encodeHead 4 ws.length with
      | .error e => (.error e : Except String (List Nat))
      | .ok hb =>
        match encOne.encList ws with
        | .error e => .error e
        | .ok bw => .ok (hb ++ bw)) = .ok bv := h
    split at h
    · exact Except.noConfusion h
    · rename_i hb hh
      split at h
      · exact Except.noConfusion h
      · injection h with h
        rw [← h]
        exact fun hx => (encodeHead_ne_nil hh) (List.append_eq_nil.mp hx).1
  | map kvs =>
    replace h : (match encodeHead 5 kvs.length with
      | .error e => (.error e : Except String (List Nat))
      | .ok hb =>
        match encOne.encPairs kvs with
        | .error e => .error e
        | .ok bw => .ok (hb ++ bw)) = .ok bv := h
    split at h
    · exact Except.noConfusion h
    · rename_i hb hh
      split at h
      · exact Except.noConfusion h
      · injection h with h
        rw [← h]
        exact fun hx => (encodeHead_ne_nil hh) (List.append_eq_nil.mp hx).1
  | bool b =>
    replace h : .ok [if b then 245 else 244] = Except.ok bv := h
    injection h with h
    rw [← h]
    simp

/-- Decoding inverts encoding: a successfully encoded item sequence decodes
back to itself, leaving the trailing bytes untouched, for any sufficient
fuel. -/
theorem decodeItems_encList :
    ∀ g (vs : List CborValue) (bs rest : List Nat),
      encOne.encList vs = .ok bs → (bs ++ rest).length < g →
      decodeItems g vs.length (bs ++ rest) = .ok (vs, rest) := by
  intro g
  induction g with
  | zero => intro vs bs rest _ hg; omega
  | succ g ih =>
    intro vs bs rest h hg
    cases vs with
    | nil =>
      replace h : Except.ok ([] : List Nat) = Except.ok bs := h
      injection h with h
      subst h
      rfl
    | cons v vs =>
      replace h : (match encOne v with
        | .error e => (.error e : Except String (List Nat))
        | .ok bv =>
          match encOne.encList vs with
          | .error e => .error e
          | .ok br => .ok (bv ++ br)) = .ok bs := h
      split at h
      · exact Except.noConfusion h
      rename_i bv heqv
      split at h
      · exact Except.noConfusion h
      rename_i br heqr
      injection h with h
      subst h
      rw [List.append_assoc]
      have hbv : bv ≠ [] := encOne_ne_nil heqv
      have hlen2 : (br ++ rest).length < g := by
        have := List.length_pos.mpr hbv
        simp only [List.length_append] at hg ⊢
        omega
      simp only [List.length_cons]
      cases v with
      | uint a =>
        replace heqv : encodeHead 0 a = .ok bv := heqv
        rw [decodeItems_succ, decodeHead_encodeHead heqv (br ++ rest)]
        show (match decodeItems g vs.length (br ++ rest) with
          | Except.error e => Except.error e
          | Except.ok (ws, r3) => Except.ok (CborValue.uint a :: ws, r3)) =
          Except.ok (CborValue.uint a :: vs, rest)
        rw [ih vs br rest heqr hlen2]
      | nint a =>
        replace heqv : encodeHead 1 a = .ok bv := heqv
        rw [decodeItems_succ, decodeHead_encodeHead heqv (br ++ rest)]
        show (match decodeItems g vs.length (br ++ rest) with
          | Except.error e => Except.error e
          | Except.ok (ws, r3) => Except.ok (CborValue.nint a :: ws, r3)) =
          Except.ok (CborValue.nint a :: vs, rest)
        rw [ih vs br rest heqr hlen2]
      | bstr bs0 =>
        replace heqv : (match encodeHead 2 bs0.length with
          | .error e => (.error e : Except String (List Nat))
          | .ok hb => .ok (hb ++ bs0)) = .ok bv := heqv
        split at heqv
        · exact Except.noConfusion heqv
        rename_i hb hh
        injection heqv with heqv
        subst heqv
        rw [List.append_assoc, decodeItems_succ,
          decodeHead_encodeHead hh (bs0 ++ (br ++ rest))]
        show (match (match readBytes bs0.length (bs0 ++ (br ++ rest)) with
            | Except.error e => Except.error e
            | Except.ok (bs2, r2) => Except.ok (CborValue.bstr bs2, r2) :
            Except String (CborValue × List Nat)) with
          | Except.error e => Except.error e
          | Except.ok (v, r2) =>
            match decodeItems g vs.length r2 with
            | Except.error e => Except.error e
            | Except.ok (ws, r3) => Except.ok (v :: ws, r3)) =
          Except.ok (CborValue.bstr bs0 :: vs, rest)
        rw [readBytes_exact bs0 (br ++ rest)]
        show (match decodeItems g vs.length (br ++ rest) with
          | Except.error e => Except.error e
          | Except.ok (ws, r3) => Except.ok (CborValue.bstr bs0 :: ws, r3)) =
          Except.ok (CborValue.bstr bs0 :: vs, rest)
        rw [ih vs br rest heqr hlen2]
      | tstr ts0 =>
        replace heqv : (match encodeHead 3 ts0.length with
          | .error e => (.error e : Except String (List Nat))
          | .ok hb => .ok (hb ++ ts0)) = .ok bv := heqv
        split at heqv
        · exact Except.noConfusion heqv
        rename_i hb hh
        injection heqv with heqv
        subst heqv
        rw [List.append_assoc, decodeItems_succ,
          decodeHead_encodeHead hh (ts0 ++ (br ++ rest))]
        show (match (match readBytes ts0.length (ts0 ++ (br ++ rest)) with
            | Except.error e => Except.error e
            | Except.ok (bs2, r2) => Except.ok (CborValue.tstr bs2, r2) :
            Except String (CborValue × List Nat)) with
          | Except.error e => Except.error e
          | Except.ok (v, r2) =>
            match decodeItems g vs.length r2 with
            | Except.error e => Except.error e
            | Except.ok (ws, r3) => Except.ok (v :: ws, r3)) =
          Except.ok (CborValue.tstr ts0 :: vs, rest)
        rw [readBytes_exact ts0 (br ++ rest)]
        show (match decodeItems g vs.length (br ++ rest) with
          | Except.error e => Except.error e
          | Except.ok (ws, r3) => Except.ok (CborValue.tstr ts0 :: ws, r3)) =
          Except.ok (CborValue.tstr ts0 :: vs, rest)
        rw [ih vs br rest heqr hlen2]
      | arr ws0 =>
        replace heqv : (match encodeHead 4 ws0.length with
          | .error e => (.error e : Except String (List Nat))
          | .ok hb =>
            match encOne.encList ws0 with
            | .error e => .error e
            | .ok bw => .ok (hb ++ bw)) = .ok bv := heqv
        split at heqv
        · exact Except.noConfusion heqv
        rename_i hb hh
        split at heqv
        · exact Except.noConfusion heqv
        rename_i bw hw
        injection heqv with heqv
        subst heqv
        rw [List.append_assoc, decodeItems_succ,
          decodeHead_encodeHead hh (bw ++ (br ++ rest))]
        show (match (match decodeItems g ws0.length (bw ++ (br ++ rest)) with
            | Except.error e => Except.error e
            | Except.ok (ws2, r2) => Except.ok (CborValue.arr ws2, r2) :
            Except String (CborValue × List Nat)) with
          | Except.error e => Except.error e
          | Except.ok (v, r2) =>
            match decodeItems g vs.length r2 with
            | Except.error e => Except.error e
            | Except.ok (ws2, r3) => Except.ok (v :: ws2, r3)) =
          Except.ok (CborValue.arr ws0 :: vs, rest)
        have hlen3 : (bw ++ (br ++ rest)).length < g := by
          have := List.length_pos.mpr (encodeHead_ne_nil hh)
          simp only [List.length_append] at hg ⊢
          omega
        rw [ih ws0 bw (br ++ rest) hw hlen3]
        show (match decodeItems g vs.length (br ++ rest) with
          | Except.error e => Except.error e
          | Except.ok (ws2, r3) => Except.ok (CborValue.arr ws0 :: ws2, r3)) =
          Except.ok (CborValue.arr ws0 :: vs, rest)
        rw [ih vs br rest heqr hlen2]
      | map kvs =>
        replace heqv : (match encodeHead 5 kvs.length with
          | .error e => (.error e : Except String (List Nat))
          | .ok hb =>
            match encOne.encPairs kvs with
            | .error e => .error e
            | .ok bw => .ok (hb ++ bw)) = .ok bv := heqv
        split at heqv
        · exact Except.noConfusion heqv
        rename_i hb hh
        split at heqv
        · exact Except.noConfusion heqv
        rename_i bw hw
        injection heqv with heqv
        subst heqv
        rw [encPairs_eq_encList_flatPairs] at hw
        rw [List.append_assoc, decodeItems_succ,
          decodeHead_encodeHead hh (bw ++ (br ++ rest))]
        show (match (match decodeItems g (kvs.length + kvs.length) (bw ++ (br ++ rest)) with
            | Except.error e => Except.error e
            | Except.ok (ws2, r2) => Except.ok (CborValue.map (pairUp ws2), r2) :
            Except String (CborValue × List Nat)) with
          | Except.error e => Except.error e
          | Except.ok (v, r2) =>
            match decodeItems g vs.length r2 with
            | Except.error e => Except.error e
            | Except.ok (ws2, r3) => Except.ok (v :: ws2, r3)) =
          Except.ok (CborValue.map kvs :: vs, rest)
        have hlen3 : (bw ++ (br ++ rest)).length < g := by
          have := List.length_pos.mpr (encodeHead_ne_nil hh)
          simp only [List.length_append] at hg ⊢
          omega
        rw [← length_flatPairs kvs, ih (flatPairs kvs) bw (br ++ rest) hw hlen3]
        show (match decodeItems g vs.length (br ++ rest) with
          | Except.error e => Except.error e
          | Except.ok (ws2, r3) =>
            Except.ok (CborValue.map (pairUp (flatPairs kvs)) :: ws2, r3)) =
          Except.ok (CborValue.map kvs :: vs, rest)
        rw [pairUp_flatPairs]
        show (match decodeItems g vs.length (br ++ rest) with
          | Except.error e => Except.error e
          | Except.ok (ws2, r3) => Except.ok (CborValue.map kvs :: ws2, r3)) =
          Except.ok (CborValue.map kvs :: vs, rest)
        rw [ih vs br rest heqr hlen2]
      | bool b =>
        replace heqv : Except.ok [if b then 245 else 244] = Except.ok bv := heqv
        injection heqv with heqv
        subst heqv
        cases b with
        | false =>
          rw [decodeItems_succ]
          rw [show ([if false then 245 else 244] ++ (br ++ rest))
            = 244 :: (br ++ rest) from rfl]
          rw [show decodeHead (244 :: (br ++ rest))
            = .ok (7, 20, br ++ rest) from rfl]
          show (match decodeItems g vs.length (br ++ rest) with
            | Except.error e => Except.error e
            | Except.ok (ws2, r3) => Except.ok (CborValue.bool false :: ws2, r3)) =
            Except.ok (CborValue.bool false :: vs, rest)
          rw [ih vs br rest heqr hlen2]
        | true =>
          rw [decodeItems_succ]
          rw [show ([if true then 245 else 244] ++ (br ++ rest))
            = 245 :: (br ++ rest) from rfl]
          rw [show decodeHead (245 :: (br ++ rest))
            = .ok (7, 21, br ++ rest) from rfl]
          show (match decodeItems g vs.length (br ++ rest) with
            | Except.error e => Except.error e
            | Except.ok (ws2, r3) => Except.ok (CborValue.bool true :: ws2, r3)) =
            Except.ok (CborValue.bool true :: vs, rest)
          rw [ih vs br rest heqr hlen2]

/-- Round trip for a single marshaled value. -/
theorem cborDecodeOne_marshal {v : CborValue} {bs : List Nat}
    (h : cborMarshal v = .ok bs) (rest : List Nat) :
    cborDecodeOne (bs ++ rest) = .ok (v, rest) := by
  have hlist : encOne.encList [v] = .ok (bs ++ []) := by
    show (match encOne v with
      | .error e => (.error e : Except String (List Nat))
      | .ok bv =>
        match encOne.encList [] with
        | .error e => .error e
        | .ok br => .ok (bv ++ br)) = .ok (bs ++ [])
    rw [show encOne v = cborMarshal v from rfl, h]
    rfl
  have hd := decodeItems_encList ((bs ++ []) ++ rest).length.succ [v] (bs ++ [])
    rest hlist (by omega)
  unfold cborDecodeOne
  simp only [List.append_nil] at hd ⊢
  have hd2 : decodeItems (bs ++ rest).length.succ 1 (bs ++ rest)
      = .ok ([v], rest) := hd
  rw [show (bs ++ rest).length + 1 = (bs ++ rest).length.succ from rfl, hd2]

/-! ## COSE headers (`cose` package, `Header.MarshalCBOR` / `UnmarshalCBOR`)

`Header` carries a protected and an unprotected `HeaderMap`
(`map[Label]any`); Go maps are modelled as association lists.  The protected
map is marshaled through `newEmptyOrSerializedMap` = `Bstr[omitEmpty[...]]`:
its serialized bytes are wrapped in a byte string, with a serialized empty
map collapsed to zero bytes by `omitEmpty`.  A `Label` is an `int64` or a
string; its `Str` field is kept as UTF-8 bytes.  `Label.MarshalCBOR`
marshals `l.Int64` when non-zero; otherwise the source marshals `l.String`
— the method VALUE, not a call — which the codec rejects as an unsupported
function value (modelled as an error). -/

theorem labelMarshalCBOR_ok_inv {l : Label} {lb : List Nat}
    (h : labelMarshalCBOR l = .ok lb) :
    l.Int64 ≠ 0 ∧ cborMarshal (intToCbor l.Int64) = .ok lb := by
  unfold labelMarshalCBOR at h
  split at h
  · rename_i hne
    exact ⟨hne, h⟩
  · exact Except.noConfusion h

theorem labelOfCbor_intToCbor (i : Int) :
    labelOfCbor (intToCbor i) = .ok ⟨i, []⟩ := by
  unfold intToCbor
  split
  · rename_i hpos
    show Except.ok (⟨(i.toNat : Int), []⟩ : Label) = .ok ⟨i, []⟩
    simp only [Except.ok.injEq, Label.mk.injEq, and_true]
    omega
  · rename_i hneg
    show Except.ok (⟨-(((-(i + 1)).toNat : Int)) - 1, []⟩ : Label) = .ok ⟨i, []⟩
    simp only [Except.ok.injEq, Label.mk.injEq, and_true]
    omega

/-- One-step unfolding of the encoder on an item sequence. -/
theorem encList_cons (v : CborValue) (vs : List CborValue) :
    encOne.encList (v :: vs) =
      (match encOne v with
      | .error e => .error e
      | .ok bv =>
        match encOne.encList vs with
        | .error e => .error e
        | .ok br => .ok (bv ++ br)) := rfl

theorem newRawHeaderMap_length :
    ∀ {m : HeaderMap} {rm : List (Label × List Nat)},
      newRawHeaderMap m = .ok rm → rm.length = m.length := by
  intro m
  induction m with
  | nil =>
    intro rm h
    injection h with h
    subst h
    rfl
  | cons lv rest ih =>
    intro rm h
    rcases lv with ⟨l, v⟩
    replace h : (match cborMarshal v with
      | .error e => (.error e : Except String (List (Label × List Nat)))
      | .ok vb =>
        match newRawHeaderMap rest with
        | .error e => .error e
        | .ok rm2 => .ok ((l, vb) :: rm2)) = .ok rm := h
    rcases hcv : cborMarshal v with e | vb
    · rw [hcv] at h; exact Except.noConfusion h
    rw [hcv] at h
    replace h : (match newRawHeaderMap rest with
      | .error e => (.error e : Except String (List (Label × List Nat)))
      | .ok rm2 => .ok ((l, vb) :: rm2)) = .ok rm := h
    rcases hrm : newRawHeaderMap rest with e | rm2
    · rw [hrm] at h; exact Except.noConfusion h
    rw [hrm] at h
    replace h : Except.ok ((l, vb) :: rm2) = .ok rm := h
    injection h with h
    subst h
    simp [ih hrm]

/-- The map entries of a marshaled header map are exactly the encoding of
the flat key/value item sequence. -/
theorem encodeMapEntries_encList :
    ∀ {m : HeaderMap} {rm : List (Label × List Nat)} {eb : List Nat},
      newRawHeaderMap m = .ok rm → encodeMapEntries rm = .ok eb →
      encOne.encList (flatPairs (toKVs m)) = .ok eb := by
  intro m
  induction m with
  | nil =>
    intro rm eb hraw henc
    injection hraw with hraw
    subst hraw
    replace henc : Except.ok ([] : List Nat) = .ok eb := henc
    injection henc with henc
    subst henc
    rfl
  | cons lv rest ih =>
    intro rm eb hraw henc
    rcases lv with ⟨l, v⟩
    replace hraw : (match cborMarshal v with
      | .error e => (.error e : Except String (List (Label × List Nat)))
      | .ok vb =>
        match newRawHeaderMap rest with
        | .error e => .error e
        | .ok rm2 => .ok ((l, vb) :: rm2)) = .ok rm := hraw
    rcases hcv : cborMarshal v with e | vb
    · rw [hcv] at hraw; exact Except.noConfusion hraw
    rw [hcv] at hraw
    replace hraw : (match newRawHeaderMap rest with
      | .error e => (.error e : Except String (List (Label × List Nat)))
      | .ok rm2 => .ok ((l, vb) :: rm2)) = .ok rm := hraw
    rcases hrm : newRawHeaderMap rest with e | rm2
    · rw [hrm] at hraw; exact Except.noConfusion hraw
    rw [hrm] at hraw
    replace hraw : Except.ok ((l, vb) :: rm2) = .ok rm := hraw
    injection hraw with hraw
    subst hraw
    replace henc : (match labelMarshalCBOR l with
      | .error e => (.error e : Except String (List Nat))
      | .ok lb =>
        match encodeMapEntries rm2 with
        | .error e => .error e
        | .ok eb2 => .ok (lb ++ vb ++ eb2)) = .ok eb := henc
    rcases hlb : labelMarshalCBOR l with e | lb
    · rw [hlb] at henc; exact Except.noConfusion henc
    rw [hlb] at henc
    replace henc : (match encodeMapEntries rm2 with
      | .error e => (.error e : Except String (List Nat))
      | .ok eb2 => .ok (lb ++ vb ++ eb2)) = .ok eb := henc
    rcases heb : encodeMapEntries rm2 with e | eb2
    · rw [heb] at henc; exact Except.noConfusion henc
    rw [heb] at henc
    replace henc : Except.ok (lb ++ vb ++ eb2) = .ok eb := henc
    injection henc with henc
    obtain ⟨-, hlb2⟩ := labelMarshalCBOR_ok_inv hlb
    have hstep : encOne.encList (v :: flatPairs (toKVs rest)) =
        Except.ok (vb ++ eb2) := by
      rw [encList_cons, show encOne v = Except.ok vb from hcv]
      show (match encOne.encList (flatPairs (toKVs rest)) with
        | Except.error e => (Except.error e : Except String (List Nat))
        | Except.ok br => Except.ok (vb ++ br)) = Except.ok (vb ++ eb2)
      rw [ih hrm heb]
    show encOne.encList
      (intToCbor l.Int64 :: v :: flatPairs (toKVs rest)) = .ok eb
    rw [encList_cons,
      show encOne (intToCbor l.Int64) = Except.ok lb from hlb2]
    show (match encOne.encList (v :: flatPairs (toKVs rest)) with
      | Except.error e => (Except.error e : Except String (List Nat))
      | Except.ok br => Except.ok (lb ++ br)) = .ok eb
    rw [hstep]
    show Except.ok (lb ++ (vb ++ eb2)) = .ok eb
    rw [← List.append_assoc, henc]

/-- Decoding the flat key/value items of a well-formed header map restores
the map. -/
theorem labelPairs_toKVs :
    ∀ {m : HeaderMap}, (∀ lv ∈ m, WfLabel lv.1) →
      labelPairs (toKVs m) = .ok m := by
  intro m
  induction m with
  | nil => intro _; rfl
  | cons lv rest ih =>
    intro hwf
    rcases lv with ⟨l, v⟩
    show (match labelOfCbor (intToCbor l.Int64) with
      | Except.error e => (Except.error e : Except String HeaderMap)
      | Except.ok l2 =>
        match labelPairs (toKVs rest) with
        | Except.error e => Except.error e
        | Except.ok m2 => Except.ok ((l2, v) :: m2)) = .ok ((l, v) :: rest)
    rw [labelOfCbor_intToCbor, ih (fun lv2 h2 => hwf lv2 (List.mem_cons_of_mem _ h2))]
    have hl : (⟨l.Int64, []⟩ : Label) = l := by
      obtain ⟨-, hstr⟩ := hwf (l, v) (List.mem_cons_self _ _)
      rcases l with ⟨li, ls⟩
      simp only at hstr
      rw [hstr]
    rw [hl]

theorem encodeMapEntries_ne_nil {l : Label} {raw : List Nat}
    {rest : List (Label × List Nat)} {eb : List Nat}
    (h : encodeMapEntries ((l, raw) :: rest) = .ok eb) : eb ≠ [] := by
  replace h : (match labelMarshalCBOR l with
    | .error e => (.error e : Except String (List Nat))
    | .ok lb =>
      match encodeMapEntries rest with
      | .error e => .error e
      | .ok eb2 => .ok (lb ++ raw ++ eb2)) = .ok eb := h
  rcases hlb : labelMarshalCBOR l with e | lb
  · rw [hlb] at h; exact Except.noConfusion h
  rw [hlb] at h
  replace h : (match encodeMapEntries rest with
    | .error e => (.error e : Except String (List Nat))
    | .ok eb2 => .ok (lb ++ raw ++ eb2)) = .ok eb := h
  rcases heb : encodeMapEntries rest with e | eb2
  · rw [heb] at h; exact Except.noConfusion h
  rw [heb] at h
  replace h : Except.ok (lb ++ raw ++ eb2) = .ok eb := h
  injection h with h
  subst h
  obtain ⟨-, hlb2⟩ := labelMarshalCBOR_ok_inv hlb
  have hne : lb ≠ [] := encOne_ne_nil hlb2
  intro hx
  rw [List.append_assoc] at hx
  exact hne (List.append_eq_nil.mp hx).1

/-- Round trip of one encoded header map, with arbitrary trailing bytes. -/
theorem decodeHeaderMapBytes_roundtrip {m : HeaderMap}
    {rm : List (Label × List Nat)} {mb : List Nat}
    (hwf : ∀ lv ∈ m, WfLabel lv.1)
    (hraw : newRawHeaderMap m = .ok rm)
    (henc : rawHeaderMapEncode rm = .ok mb) (t : List Nat) :
    decodeHeaderMapBytes (mb ++ t) = .ok (m, t) := by
  unfold rawHeaderMapEncode at henc
  rcases hhb : encodeHead 5 rm.length with e | hb
  · rw [hhb] at henc; exact Except.noConfusion henc
  rw [hhb] at henc
  replace henc : (match encodeMapEntries rm with
    | .error e => (.error e : Except String (List Nat))
    | .ok eb => .ok (hb ++ eb)) = .ok mb := henc
  rcases heb : encodeMapEntries rm with e | eb
  · rw [heb] at henc; exact Except.noConfusion henc
  rw [heb] at henc
  replace henc : Except.ok (hb ++ eb) = .ok mb := henc
  injection henc with henc
  subst henc
  rw [List.append_assoc]
  rw [newRawHeaderMap_length hraw] at hhb
  unfold decodeHeaderMapBytes
  rw [decodeHead_encodeHead hhb (eb ++ t)]
  show (match decodeItems ((eb ++ t).length + 1)
      (m.length + m.length) (eb ++ t) with
    | Except.error e => (Except.error e : Except String (HeaderMap × List Nat))
    | Except.ok (vs, r2) =>
      match labelPairs (pairUp vs) with
      | Except.error e => Except.error e
      | Except.ok entries => Except.ok (entries, r2)) = .ok (m, t)
  have hlist := encodeMapEntries_encList hraw heb
  have hcount : m.length + m.length = (flatPairs (toKVs m)).length := by
    rw [length_flatPairs]
    simp [toKVs]
  rw [hcount]
  rw [decodeItems_encList ((eb ++ t).length + 1) (flatPairs (toKVs m)) eb t
    hlist (by omega)]
  show (match labelPairs (pairUp (flatPairs (toKVs m))) with
    | Except.error e => (Except.error e : Except String (HeaderMap × List Nat))
    | Except.ok entries => Except.ok (entries, t)) = .ok (m, t)
  rw [pairUp_flatPairs, labelPairs_toKVs hwf]

/-- Unfolding `headerUnmarshalCBOR` on a well-shaped 2-array stream. -/
theorem headerUnmarshal_step {content bh ub urest : List Nat}
    {pmap umap : HeaderMap}
    (hbh : encodeHead 2 content.length = .ok bh)
    (hpmap : (if content = [] then Except.ok ([] : HeaderMap)
       else
         match decodeHeaderMapBytes content with
         | Except.error e => Except.error e
         | Except.ok (pmap2, leftover) =>
           if leftover = [] then Except.ok pmap2
           else Except.error "trailing bytes in protected header") = .ok pmap)
    (humap : decodeHeaderMapBytes ub = .ok (umap, urest)) :
    headerUnmarshalCBOR (130 :: (bh ++ (content ++ ub))) = .ok (pmap, umap) := by
  unfold headerUnmarshalCBOR
  rw [show decodeHead (130 :: (bh ++ (content ++ ub)))
      = Except.ok (4, 2, bh ++ (content ++ ub)) from rfl]
  show (match decodeHead (bh ++ (content ++ ub)) with
    | Except.error e => (Except.error e : Except String (HeaderMap × HeaderMap))
    | Except.ok (m2, plen, r2) =>
      if m2 = 2 then
        match readBytes plen r2 with
        | Except.error e => Except.error e
        | Except.ok (content2, r3) =>
          match
            (if content2 = [] then Except.ok []
             else
               match decodeHeaderMapBytes content2 with
               | Except.error e => Except.error e
               | Except.ok (pmap2, leftover) =>
                 if leftover = [] then Except.ok pmap2
                 else Except.error "trailing bytes in protected header" :
             Except String HeaderMap) with
          | Except.error e => Except.error e
          | Except.ok pmap2 =>
            match decodeHeaderMapBytes r3 with
            | Except.error e => Except.error e
            | Except.ok (umap2, _) => Except.ok (pmap2, umap2)
      else Except.error "expected byte string") = Except.ok (pmap, umap)
  rw [decodeHead_encodeHead hbh (content ++ ub)]
  show (match readBytes content.length (content ++ ub) with
    | Except.error e => (Except.error e : Except String (HeaderMap × HeaderMap))
    | Except.ok (content2, r3) =>
      match
        (if content2 = [] then Except.ok []
         else
           match decodeHeaderMapBytes content2 with
           | Except.error e => Except.error e
           | Except.ok (pmap2, leftover) =>
             if leftover = [] then Except.ok pmap2
             else Except.error "trailing bytes in protected header" :
         Except String HeaderMap) with
      | Except.error e => Except.error e
      | Except.ok pmap2 =>
        match decodeHeaderMapBytes r3 with
        | Except.error e => Except.error e
        | Except.ok (umap2, _) => Except.ok (pmap2, umap2)) = Except.ok (pmap, umap)
  rw [readBytes_exact content ub]
  show (match
      (if content = [] then Except.ok []
       else
         match decodeHeaderMapBytes content with
         | Except.error e => Except.error e
         | Except.ok (pmap2, leftover) =>
           if leftover = [] then Except.ok pmap2
           else Except.error "trailing bytes in protected header" :
       Except String HeaderMap) with
    | Except.error e => (Except.error e : Except String (HeaderMap × HeaderMap))
    | Except.ok pmap2 =>
      match decodeHeaderMapBytes ub with
      | Except.error e => Except.error e
      | Except.ok (umap2, _) => Except.ok (pmap2, umap2)) = Except.ok (pmap, umap)
  rw [hpmap]
  show (match decodeHeaderMapBytes ub with
    | Except.error e => (Except.error e : Except String (HeaderMap × HeaderMap))
    | Except.ok (umap2, _) => Except.ok (pmap, umap2)) = Except.ok (pmap, umap)
  rw [humap]

/-- `Header.UnmarshalCBOR` inverts `Header.MarshalCBOR` on maps whose labels
are well formed (a non-zero int key and no text form). -/
theorem headerRoundtrip {pm um : HeaderMap} {b : List Nat}
    (hp : ∀ lv ∈ pm, WfLabel lv.1) (hu : ∀ lv ∈ um, WfLabel lv.1)
    (h : headerMarshalCBOR pm um = .ok b) :
    headerUnmarshalCBOR b = .ok (pm, um) := by
  unfold headerMarshalCBOR at h
  rcases hprm : newRawHeaderMap pm with e | prm
  · rw [hprm] at h; exact Except.noConfusion h
  rw [hprm] at h
  replace h : (match rawHeaderMapEncode prm with
    | .error e => (.error e : Except String (List Nat))
    | .ok pb =>
      match bstrWrap (omitEmptyMarshal pb) with
      | .error e => .error e
      | .ok pw =>
        match newRawHeaderMap um with
        | .error e => .error e
        | .ok urm =>
          match rawHeaderMapEncode urm with
          | .error e => .error e
          | .ok ub => .ok (130 :: (pw ++ ub))) = .ok b := h
  rcases hpb : rawHeaderMapEncode prm with e | pb
  · rw [hpb] at h; exact Except.noConfusion h
  rw [hpb] at h
  replace h : (match bstrWrap (omitEmptyMarshal pb) with
    | .error e => (.error e : Except String (List Nat))
    | .ok pw =>
      match newRawHeaderMap um with
      | .error e => .error e
      | .ok urm =>
        match rawHeaderMapEncode urm with
        | .error e => .error e
        | .ok ub => .ok (130 :: (pw ++ ub))) = .ok b := h
  rcases hpw : bstrWrap (omitEmptyMarshal pb) with e | pw
  · rw [hpw] at h; exact Except.noConfusion h
  rw [hpw] at h
  replace h : (match newRawHeaderMap um with
    | .error e => (.error e : Except String (List Nat))
    | .ok urm =>
      match rawHeaderMapEncode urm with
      | .error e => .error e
      | .ok ub => .ok (130 :: (pw ++ ub))) = .ok b := h
  rcases hurm : newRawHeaderMap um with e | urm
  · rw [hurm] at h; exact Except.noConfusion h
  rw [hurm] at h
  replace h : (match rawHeaderMapEncode urm with
    | .error e => (.error e : Except String (List Nat))
    | .ok ub => .ok (130 :: (pw ++ ub))) = .ok b := h
  rcases hub : rawHeaderMapEncode urm with e | ub
  · rw [hub] at h; exact Except.noConfusion h
  rw [hub] at h
  replace h : Except.ok (130 :: (pw ++ ub)) = .ok b := h
  injection h with h
  subst h
  unfold bstrWrap at hpw
  rcases hbh : encodeHead 2 (omitEmptyMarshal pb).length with e | bh
  · rw [hbh] at hpw; exact Except.noConfusion hpw
  rw [hbh] at hpw
  replace hpw : Except.ok (bh ++ omitEmptyMarshal pb) = .ok pw := hpw
  injection hpw with hpw
  have humap2 := decodeHeaderMapBytes_roundtrip hu hurm hub []
  rw [List.append_nil] at humap2
  rw [← hpw, List.append_assoc]
  rcases pm with _ | ⟨lv, rest⟩
  · replace hprm : Except.ok ([] : List (Label × List Nat)) = .ok prm := hprm
    injection hprm with hprm
    subst hprm
    replace hpb : Except.ok ([160] : List Nat) = .ok pb := hpb
    injection hpb with hpb
    subst hpb
    rw [show omitEmptyMarshal [160] = [] from rfl] at hbh ⊢
    exact headerUnmarshal_step hbh rfl humap2
  · have hpmfull := decodeHeaderMapBytes_roundtrip hp hprm hpb []
    rw [List.append_nil] at hpmfull
    rcases lv with ⟨l, v⟩
    replace hprm : (match cborMarshal v with
      | .error e => (.error e : Except String (List (Label × List Nat)))
      | .ok vb =>
        match newRawHeaderMap rest with
        | .error e => .error e
        | .ok rm2 => .ok ((l, vb) :: rm2)) = .ok prm := hprm
    rcases hcv : cborMarshal v with e | vb
    · rw [hcv] at hprm; exact Except.noConfusion hprm
    rw [hcv] at hprm
    replace hprm : (match newRawHeaderMap rest with
      | .error e => (.error e : Except String (List (Label × List Nat)))
      | .ok rm2 => .ok ((l, vb) :: rm2)) = .ok prm := hprm
    rcases hrm : newRawHeaderMap rest with e | rm2
    · rw [hrm] at hprm; exact Except.noConfusion hprm
    rw [hrm] at hprm
    replace hprm : Except.ok ((l, vb) :: rm2) = .ok prm := hprm
    injection hprm with hprm
    unfold rawHeaderMapEncode at hpb
    rcases hhb : encodeHead 5 prm.length with e | hb
    · rw [hhb] at hpb; exact Except.noConfusion hpb
    rw [hhb] at hpb
    replace hpb : (match encodeMapEntries prm with
      | .error e => (.error e : Except String (List Nat))
      | .ok eb => .ok (hb ++ eb)) = .ok pb := hpb
    rcases heb : encodeMapEntries prm with e | eb
    · rw [heb] at hpb; exact Except.noConfusion hpb
    rw [heb] at hpb
    replace hpb : Except.ok (hb ++ eb) = .ok pb := hpb
    injection hpb with hpb
    have hebne : eb ≠ [] := by
      rw [← hprm] at heb
      exact encodeMapEntries_ne_nil heb
    have hhbne : hb ≠ [] := encodeHead_ne_nil hhb
    have hlen : pb.length ≠ 1 := by
      rw [← hpb, List.length_append]
      have h1 : 0 < hb.length := List.length_pos.mpr hhbne
      have h2 : 0 < eb.length := List.length_pos.mpr hebne
      omega
    have hpbne : pb ≠ [] := by
      rw [← hpb]
      intro hx
      exact hhbne (List.append_eq_nil.mp hx).1
    have homit : omitEmptyMarshal pb = pb := by
      unfold omitEmptyMarshal
      rw [if_pos hlen]
    rw [homit] at hbh ⊢
    have hcontent : (if pb = [] then Except.ok ([] : HeaderMap)
       else
         match decodeHeaderMapBytes pb with
         | Except.error e => Except.error e
         | Except.ok (pmap2, leftover) =>
           if leftover = [] then Except.ok pmap2
           else Except.error "trailing bytes in protected header")
        = .ok ((l, v) :: rest) := by
      rw [if_neg hpbne, hpmfull]
      rfl
    exact headerUnmarshal_step hbh hcontent humap2

/-- An empty protected map marshals to the zero-length byte string `0x40`
(byte 64), not to the byte-string wrapping of an encoded empty map. -/
theorem headerMarshal_empty_protected {um : HeaderMap} {b : List Nat}
    (h : headerMarshalCBOR [] um = .ok b) :
    ∃ ub, b = 130 :: 64 :: ub := by
  replace h : (match newRawHeaderMap um with
    | .error e => (.error e : Except String (List Nat))
    | .ok urm =>
      match rawHeaderMapEncode urm with
      | .error e => .error e
      | .ok ub => .ok (130 :: ([64] ++ ub))) = .ok b := h
  rcases hurm : newRawHeaderMap um with e | urm
  · rw [hurm] at h; exact Except.noConfusion h
  rw [hurm] at h
  replace h : (match rawHeaderMapEncode urm with
    | .error e => (.error e : Except String (List Nat))
    | .ok ub => .ok (130 :: ([64] ++ ub))) = .ok b := h
  rcases hub : rawHeaderMapEncode urm with e | ub
  · rw [hub] at h; exact Except.noConfusion h
  rw [hub] at h
  replace h : Except.ok (130 :: ([64] ++ ub)) = .ok b := h
  injection h with h
  exact ⟨ub, by rw [← h]; rfl⟩

/-! ## The fdo.payload module (owner and device sides)

Messages are modelled in decoded form: the Go code CBOR-encodes each message
body on the wire and decodes it on receipt, and the codec round trip is
proved separately (`cborDecodeOne_marshal`).  The device's `PayloadHandler`
is modelled as an accepting handler (every MIME type supported, every chunk
and payload accepted); its observable calls (`ReceiveChunk` arguments and
`CancelPayload` invocations) are recorded in a `HandlerState`. -/

/-- C1 (counterexample): the claim's direction of the root named-owner check
is wrong.  On the chain `[certRootScoped]` (root constraints `DNS:a.dom`)
with expected named owner `DNS:*.dom`, `VerifyDelegateChain` SUCCEEDS even
though the named owner `DNS:*.dom` is NOT permitted by the root constraint
set `DNS:a.dom` (its term matches no root term).  The source checks
`IsPermittedIdentifierRule(rootIdent, namedOwner)` — the reverse of the
claim. -/
theorem C1_counterexample :
    VerifyDelegateChain [certRootScoped] none (some OID_delegateOnboard)
      (some "DNS:*.dom") = .ok () ∧
    IsPermittedIdentifierRule "DNS:*.dom" "DNS:a.dom" = false := by
  constructor
  · rfl
  · decide

/-- C1 (amended): for every chain, optional owner key, function OID, and
named owner `N`, if verification succeeds and the root of the processed
chain (with the ephemeral owner root appended when an owner key is given)
carries a non-empty `IdentifierConstraints` value `R`, then
`IsPermittedIdentifierRule R N` holds: every term of the ROOT's constraints
matches some term of `N` (the arguments are reversed relative to the
original claim); when that reversed check fails, verification returns an
error. -/
theorem C1_theorem (chain : List Cert) (K : Option OwnerKey) (oid : Option OID)
    (N : String) (chain2 : List Cert)
    (h : VerifyDelegateChain chain K oid (some N) = .ok ())
    (hext : extendWithOwnerRoot chain K (oidArrayOf oid) = .ok chain2)
    (hne : rootIdentScan (chain2.getLastD defaultCert) ≠ "") :
    IsPermittedIdentifierRule (rootIdentScan (chain2.getLastD defaultCert)) N = true := by
  obtain ⟨-, chain2', hext', -, hroot⟩ := processDelegateChain_ok_inv h
  rw [hext] at hext'
  injection hext' with hext'
  subst hext'
  exact rootNamedOwnerCheck_ok_inv hroot hne

/-- C1 (witness for the amended theorem): on the concrete scoped chain the
reversed check does hold. -/
theorem C1_witness :
    IsPermittedIdentifierRule
      (rootIdentScan (([certRootScoped] : List Cert).getLastD defaultCert))
      "DNS:*.dom" = true :=
  C1_theorem [certRootScoped] none (some OID_delegateOnboard) "DNS:*.dom"
    [certRootScoped] (by rfl) (by rfl) (by decide)

/-- C2: if `VerifyDelegateChain(C, K, f, nil)` succeeds then every
certificate of `C` carries `f` among its extensions, and the leaf's
`Identifier` (when it declares one) is permitted by the
`IdentifierConstraints` of every certificate above it that declares
constraints. -/
theorem C2_theorem (chain : List Cert) (K : Option OwnerKey) (f : OID)
    (h : VerifyDelegateChain chain K (some f) none = .ok ()) :
    (∀ c ∈ chain, certMissingOID c f = false) ∧
    (GetCertIdentifierStr (chain.headD defaultCert) ≠ "" →
      ∀ c ∈ chain.tail, getIdentConstraints c ≠ "" →
        IsPermittedIdentifierRule (GetCertIdentifierStr (chain.headD defaultCert))
          (getIdentConstraints c) = true) := by
  obtain ⟨hne, chain2, hext, hloop, -⟩ := processDelegateChain_ok_inv h
  obtain ⟨suffix, rfl⟩ := extendWithOwnerRoot_ok hext
  rcases chain with _ | ⟨c0, rest⟩
  · exact absurd rfl hne
  simp only [List.cons_append] at hloop
  unfold delegateLoop at hloop
  split at hloop
  · exact Except.noConfusion hloop
  rename_i nextStr hstep
  rw [if_pos rfl] at hstep
  have inv := certStep_ok_inv hstep
  constructor
  · intro c hc
    rcases List.mem_cons.mp hc with rfl | hmem
    · exact inv.2.2.2.2.1 f rfl
    · exact delegateLoop_oid (rest ++ suffix) false nextStr hloop c
        (List.mem_append_left _ hmem) f rfl
  · intro hleaf c hc hconstr
    simp only [List.headD_cons] at hleaf ⊢
    have := delegateLoop_constraints (rest ++ suffix) (some f) nextStr hloop c
      (List.mem_append_left _ hc) hconstr
    rw [inv.1] at this
    exact this.2

/-- C2 (witness): a concrete two-certificate chain on which verification for
the `onboard` OID succeeds, instantiating the theorem's conclusions. -/
theorem C2_witness :
    (∀ c ∈ [certChainLeaf, certChainRoot], certMissingOID c OID_delegateOnboard = false) ∧
    (GetCertIdentifierStr (([certChainLeaf, certChainRoot] : List Cert).headD defaultCert) ≠ "" →
      ∀ c ∈ ([certChainLeaf, certChainRoot] : List Cert).tail, getIdentConstraints c ≠ "" →
        IsPermittedIdentifierRule
          (GetCertIdentifierStr (([certChainLeaf, certChainRoot] : List Cert).headD defaultCert))
          (getIdentConstraints c) = true) :=
  C2_theorem [certChainLeaf, certChainRoot] none OID_delegateOnboard (by rfl)

/-- C3: the four concrete evaluations of `IsPermittedIdentifierRule` given
in the specification. -/
theorem C3_theorem :
    IsPermittedIdentifierRule "DNS:subsub.sub.dom" "DNS:*.dom" = true ∧
    IsPermittedIdentifierRule "DNS:*.dom" "DNS:*.sub.dom" = false ∧
    IsPermittedIdentifierRule "ID:1234-1111" "ID:*-1111" = true ∧
    IsPermittedIdentifierRule "ID:1234-1112" "ID:*-1111" = false := by
  refine ⟨by decide, by decide, by decide, by decide⟩

/-- C4 (counterexample): `IsPermittedIdentifier(x, x)` is NOT true for every
string `x`: the permitted-names argument is split on commas but the name is
not, so a name containing a comma never matches itself. -/
theorem C4_counterexample :
    IsPermittedIdentifier "a,b" "a,b" = false ∧
    IsPermittedIdentifier "a\nb" "a*b" = false := by
  constructor <;> decide

/-- C4 (amended): reflexivity holds for every comma-free string; the
comma-disjunction law holds unconditionally; and a `*` in a pattern matches
any sequence of non-newline characters within its segment (Go compiles the
wildcard to `.*` under the default flags, and `.` never matches a newline;
stated for the term matcher `globMatch` that `IsPermittedIdentifier`
applies to each comma-separated term). -/
theorem C4_theorem :
    (∀ x : String, (',' ∉ x.data) → IsPermittedIdentifier x x = true) ∧
    (∀ x a b : String,
      IsPermittedIdentifier x (a ++ "," ++ b)
        = (IsPermittedIdentifier x a || IsPermittedIdentifier x b)) ∧
    (∀ p q s m t : List Char, (∀ x ∈ m, x ≠ '\n') →
      globMatch p s = true → globMatch q t = true →
      globMatch (p ++ '*' :: q) (s ++ m ++ t) = true) := by
  refine ⟨?_, ?_, ?_⟩
  · intro x hx
    unfold IsPermittedIdentifier
    have hnc : ¬ ',' ∈ stripSpaces x.data := by
      intro hmem
      exact hx ((List.mem_filter.mp hmem).1)
    rw [splitOnComma_no_comma _ hnc]
    simp [globMatch_self]
  · intro x a b
    unfold IsPermittedIdentifier
    have hdata : (a ++ "," ++ b).data = a.data ++ ',' :: b.data := by
      simp [String.data_append]
    rw [hdata]
    have hstrip : stripSpaces (a.data ++ ',' :: b.data)
        = stripSpaces a.data ++ ',' :: stripSpaces b.data := by
      simp [stripSpaces, List.filter_append]
    rw [hstrip, splitOnComma_append, List.any_append]
  · intro p q s m t hm hp hq
    exact globMatch_star_append (p.length + s.length) p s le_rfl q m t hm hp hq

/-- C4 (witness): the amended laws instantiated at concrete strings. -/
theorem C4_witness :
    IsPermittedIdentifier "ab" "ab" = true ∧
    IsPermittedIdentifier "x" ("a" ++ "," ++ "x")
      = (IsPermittedIdentifier "x" "a" || IsPermittedIdentifier "x" "x") ∧
    globMatch (['a'] ++ '*' :: ['b']) (['a'] ++ ['z', 'z'] ++ ['b']) = true :=
  ⟨C4_theorem.1 "ab" (by decide),
   C4_theorem.2.1 "x" "a" "x",
   C4_theorem.2.2 ['a'] ['b'] ['a'] ['z', 'z'] ['b'] (by decide) (by decide)
     (by decide)⟩

/-- C7: signature algorithm and digest are deduced solely from the key
material and `usePSS` (the two functions take no other inputs):
RSA-2048 selects SHA-256, RSA-3072 selects SHA-384, with PSS options (salt
length equal to hash) exactly when `usePSS`; any other RSA size errors;
ECDSA P-256 and P-384 select ES256 and ES384. -/
theorem C7_theorem :
    (∀ usePSS, sigInfoFor .ecdsaP256 usePSS = .ok ⟨.ES256, []⟩) ∧
    (∀ usePSS, sigInfoFor .ecdsaP384 usePSS = .ok ⟨.ES384, []⟩) ∧
    (∀ usePSS, signOptsFor (.rsa 256) usePSS
      = .ok (if usePSS then .pss .SHA256 else .hash .SHA256)) ∧
    (∀ usePSS, signOptsFor (.rsa 384) usePSS
      = .ok (if usePSS then .pss .SHA384 else .hash .SHA384)) ∧
    sigInfoFor (.rsa 256) false = .ok ⟨.RS256, []⟩ ∧
    sigInfoFor (.rsa 256) true = .ok ⟨.PS256, []⟩ ∧
    sigInfoFor (.rsa 384) false = .ok ⟨.RS384, []⟩ ∧
    sigInfoFor (.rsa 384) true = .ok ⟨.PS384, []⟩ ∧
    (∀ size, size ≠ 256 → size ≠ 384 → ∀ usePSS,
      sigInfoFor (.rsa size) usePSS = .error "unsupported RSA key size") := by
  have h2048 : (2048 : Nat) / 8 = 256 := by norm_num
  have h3072 : (3072 : Nat) / 8 = 384 := by norm_num
  refine ⟨?_, ?_, ?_, ?_, by rfl, by rfl, by rfl, by rfl, ?_⟩
  · intro usePSS; cases usePSS <;> rfl
  · intro usePSS; cases usePSS <;> rfl
  · intro usePSS; cases usePSS <;> rfl
  · intro usePSS; cases usePSS <;> rfl
  · intro size hs1 hs2 usePSS
    have hopts : signOptsFor (.rsa size) usePSS = .error "unsupported RSA key size" := by
      simp only [signOptsFor]
      rw [h2048, h3072, if_neg hs1, if_neg hs2]
    simp only [sigInfoFor, hopts]

/-- C7 (witness): the error case instantiated at a concrete unsupported RSA
size (1024-bit modulus, 128 bytes). -/
theorem C7_witness :
    sigInfoFor (.rsa 128) false = .error "unsupported RSA key size" :=
  C7_theorem.2.2.2.2.2.2.2.2 128 (by decide) (by decide) false

/-- C8: when recomputation of the HMAC succeeds, `HmacVerify` returns nil
exactly when the recomputed bytes equal `h1.Value`; a mismatch returns an
error wrapping `ErrCryptoVerifyFailed`, while a failed recomputation returns
the computation's own error unchanged (hence distinguishable from the
verification-failure error whenever the hasher does not itself wrap the
sentinel). -/
theorem C8_theorem {α : Type} (dc : Int → α → Except GoError HmacHash)
    (h1 : HmacHash) (v : α) :
    (∀ h2, dc h1.Algorithm v = .ok h2 →
      ((HmacVerify dc h1 v = .ok ()) ↔ h2.Value = h1.Value) ∧
      (h2.Value ≠ h1.Value →
        HmacVerify dc h1 v = .error ⟨true, "hmac did not match"⟩)) ∧
    (∀ e, dc h1.Algorithm v = .error e → HmacVerify dc h1 v = .error e) := by
  constructor
  · intro h2 hok
    have hv : HmacVerify dc h1 v =
        (if hmacEqual h1.Value h2.Value then (.ok () : Except GoError Unit)
         else .error ⟨true, "hmac did not match"⟩) := by
      unfold HmacVerify
      rw [hok]
    constructor
    · rw [hv]
      constructor
      · intro hres
        by_cases he : h2.Value = h1.Value
        · exact he
        · have hcond : ¬(hmacEqual h1.Value h2.Value = true) := by
            simp only [hmacEqual, beq_iff_eq]
            exact fun hx => he hx.symm
          rw [if_neg hcond] at hres
          exact Except.noConfusion hres
      · intro he
        rw [if_pos (by simp [hmacEqual, he])]
    · intro hne
      have hcond : ¬(hmacEqual h1.Value h2.Value = true) := by
        simp only [hmacEqual, beq_iff_eq]
        exact fun hx => hne hx.symm
      rw [hv, if_neg hcond]
  · intro e herr
    unfold HmacVerify
    rw [herr]

/-- C8 (witness): the theorem instantiated at a concrete hasher that returns
a fixed MAC. -/
theorem C8_witness :
    ((HmacVerify (fun _ (_ : Nat) => .ok ⟨5, [1, 2]⟩) ⟨5, [1, 2]⟩ 0 = .ok ()) ↔
      ([1, 2] : List Nat) = [1, 2]) ∧
    (HmacVerify (fun _ (_ : Nat) => .error ⟨false, "boom"⟩) ⟨5, [1, 2]⟩ 0
      = .error ⟨false, "boom"⟩) :=
  ⟨((C8_theorem (fun _ (_ : Nat) => .ok ⟨5, [1, 2]⟩) ⟨5, [1, 2]⟩ 0).1 ⟨5, [1, 2]⟩ rfl).1,
   (C8_theorem (fun _ (_ : Nat) => .error ⟨false, "boom"⟩) ⟨5, [1, 2]⟩ 0).2
     ⟨false, "boom"⟩ rfl⟩

/-- C9: delegate-chain verification of an empty chain fails with the
specific "Empty chain" error for every owner key, OID, and named owner, and
`GetIdentifier` on an empty chain returns an error rather than an
identifier. -/
theorem C9_theorem :
    ∀ (K : Option OwnerKey) (oid : Option OID) (N : Option String),
      VerifyDelegateChain [] K oid N = .error "Empty chain" ∧
      GetIdentifier [] = .error "Cannot verify empty chain" := by
  intro K oid N
  exact ⟨rfl, rfl⟩

/-! ### Payload exchange lemmas -/

theorem chunksOfAux_irrel (c : Nat) (hc : 0 < c) :
    ∀ (f g : Nat) (l : List Nat), l.length ≤ f → l.length ≤ g →
      chunksOfAux f c l = chunksOfAux g c l := by
  intro f
  induction f with
  | zero =>
    intro g l hf _
    have : l = [] := List.length_eq_zero.mp (by omega)
    subst this
    cases g <;> rfl
  | succ f ih =>
    intro g l hf hg
    cases l with
    | nil => cases g <;> rfl
    | cons x xs =>
      cases g with
      | zero => simp at hg
      | succ g =>
        show (x :: xs).take c :: chunksOfAux f c ((x :: xs).drop c)
          = (x :: xs).take c :: chunksOfAux g c ((x :: xs).drop c)
        rw [ih g ((x :: xs).drop c)
          (by simp only [List.length_drop, List.length_cons] at hf ⊢; omega)
          (by simp only [List.length_drop, List.length_cons] at hg ⊢; omega)]

theorem chunksOf_pos (c : Nat) (hc : 0 < c) (x : Nat) (xs : List Nat) :
    chunksOf c (x :: xs) = (x :: xs).take c :: chunksOf c ((x :: xs).drop c) := by
  show chunksOfAux (xs.length + 1) c (x :: xs) = _
  show (x :: xs).take c :: chunksOfAux xs.length c ((x :: xs).drop c) = _
  rw [chunksOfAux_irrel c hc xs.length ((x :: xs).drop c).length ((x :: xs).drop c)
    (by simp only [List.length_drop, List.length_cons]; omega) (le_refl _)]
  rfl

theorem chunksOf_flatten (c : Nat) (hc : 0 < c) :
    ∀ (f : Nat) (l : List Nat), l.length ≤ f → (chunksOfAux f c l).flatten = l := by
  intro f
  induction f with
  | zero =>
    intro l hf
    have : l = [] := List.length_eq_zero.mp (by omega)
    subst this
    rfl
  | succ f ih =>
    intro l hf
    cases l with
    | nil => rfl
    | cons x xs =>
      show ((x :: xs).take c :: chunksOfAux f c ((x :: xs).drop c)).flatten = x :: xs
      rw [List.flatten_cons, ih ((x :: xs).drop c)
        (by simp only [List.length_drop, List.length_cons] at hf ⊢; omega)]
      exact List.take_append_drop c (x :: xs)

theorem produceInfo_data (pl : PayloadToSend) (c' : Int) (k : Nat)
    (hk : (k : Int) < (pl.Data.length : Int)) :
    PayloadOwner.produceInfo ⟨[pl], some pl, 0, (k : Int), c', false, none⟩
      = (⟨[pl], some pl, 0,
           (k : Int) + min c' ((pl.Data.length : Int) - (k : Int)), c', true, none⟩,
         [OwnerMsg.dataMsg ((pl.Data.drop k).take
            (min c' ((pl.Data.length : Int) - (k : Int))).toNat)],
         false, false) := by
  simp only [PayloadOwner.produceInfo]
  rw [if_pos hk]
  have hkn : ((k : Int)).toNat = k := by omega
  rw [hkn]
  rfl

theorem produceInfo_end (pl : PayloadToSend) (c' : Int) (k : Nat)
    (hk : ¬ ((k : Int) < (pl.Data.length : Int))) :
    PayloadOwner.produceInfo ⟨[pl], some pl, 0, (k : Int), c', false, none⟩
      = (⟨[pl], some pl, 0, (k : Int), c', false, none⟩,
         [OwnerMsg.endMsg], false, false) := by
  simp only [PayloadOwner.produceInfo]
  rw [if_neg hk]
  rfl

theorem deliver_data (ow : PayloadOwner) (a : Bool) (t es : Int)
    (del : List (List Nat)) (cz : Nat) (ch : List Nat)
    (hack : t + (ch.length : Int) = ow.bytesSent) :
    deliverToDevice ow ⟨true, a, true, t, es, []⟩ ⟨del, cz⟩ (OwnerMsg.dataMsg ch)
      = (⟨ow.payloads, ow.currentPayload, ow.currentIndex, ow.bytesSent,
           ow.chunkSize, false, ow.lastError⟩,
         ⟨true, a, true, t + (ch.length : Int), es, []⟩,
         ⟨del ++ [ch], cz⟩, none) := by
  show (match ow.receiveMsg (DevMsg.ackMsg (t + (ch.length : Int))) with
    | (o2, e2) => (o2, (⟨true, a, true, t + (ch.length : Int), es, []⟩ : Payload),
        (⟨del ++ [ch], cz⟩ : HandlerState), e2)) = _
  simp only [PayloadOwner.receiveMsg]
  rw [if_pos hack]

theorem deliver_end_ok (ow : PayloadOwner) (a : Bool) (t es : Int)
    (del : List (List Nat)) (cz : Nat)
    (h : ¬ (es > 0 ∧ t ≠ es)) :
    deliverToDevice ow ⟨true, a, true, t, es, []⟩ ⟨del, cz⟩ OwnerMsg.endMsg
      = (⟨ow.payloads, none, ow.currentIndex + 1, 0, ow.chunkSize,
           ow.waitingForAck, ow.lastError⟩,
         ⟨true, a, false, t, es, []⟩, ⟨del, cz⟩, none) := by
  have hrecv : Payload.receiveMsg ⟨true, a, true, t, es, []⟩ ⟨del, cz⟩ OwnerMsg.endMsg
      = (⟨true, a, false, t, es, []⟩, ⟨del, cz⟩, [DevMsg.resultMsg true], none) := by
    simp only [Payload.receiveMsg]
    rw [if_neg h]
    rfl
  unfold deliverToDevice Payload.Receive
  rw [hrecv]
  rfl

theorem round_data (pl : PayloadToSend) (c' : Int) (hc : 1 ≤ c') (a : Bool)
    (es : Int) (k f : Nat) (hk : k < pl.Data.length)
    (tr : List OwnerMsg) (del : List (List Nat)) (cz : Nat) :
    runPayload (f + 1) ⟨[pl], some pl, 0, (k : Int), c', false, none⟩
        ⟨true, a, true, (k : Int), es, []⟩ ⟨del, cz⟩ tr
      = runPayload f
          ⟨[pl], some pl, 0, ((k + min c'.toNat (pl.Data.length - k) : Nat) : Int),
            c', false, none⟩
          ⟨true, a, true, ((k + min c'.toNat (pl.Data.length - k) : Nat) : Int),
            es, []⟩
          ⟨del ++ [(pl.Data.drop k).take (min c'.toNat (pl.Data.length - k))], cz⟩
          (tr ++ [OwnerMsg.dataMsg
            ((pl.Data.drop k).take (min c'.toNat (pl.Data.length - k)))]) := by
  have hki : (k : Int) < (pl.Data.length : Int) := by omega
  have hmin : (min c' ((pl.Data.length : Int) - (k : Int))).toNat
      = min c'.toNat (pl.Data.length - k) := by omega
  have hlen : ((pl.Data.drop k).take (min c'.toNat (pl.Data.length - k))).length
      = min c'.toNat (pl.Data.length - k) := by
    rw [List.length_take, List.length_drop]
    omega
  have hmin2 : (k : Int) + min c' ((pl.Data.length : Int) - (k : Int))
      = ((k + min c'.toNat (pl.Data.length - k) : Nat) : Int) := by
    push_cast
    omega
  show (match PayloadOwner.produceInfo
      ⟨[pl], some pl, 0, (k : Int), c', false, none⟩ with
    | (ow2, [], _, true) => (ow2, (⟨true, a, true, (k : Int), es, []⟩ : Payload),
        (⟨del, cz⟩ : HandlerState), tr, true)
    | (ow2, [], _, false) => (ow2, ⟨true, a, true, (k : Int), es, []⟩,
        ⟨del, cz⟩, tr, false)
    | (ow2, msg :: _, _, _) =>
      match deliverToDevice ow2 ⟨true, a, true, (k : Int), es, []⟩
          ⟨del, cz⟩ msg with
      | (ow3, dev2, hs2, _) => runPayload f ow3 dev2 hs2 (tr ++ [msg])) = _
  rw [produceInfo_data pl c' k hki, hmin]
  show (match deliverToDevice
      ⟨[pl], some pl, 0,
        (k : Int) + min c' ((pl.Data.length : Int) - (k : Int)), c', true, none⟩
      ⟨true, a, true, (k : Int), es, []⟩ ⟨del, cz⟩
      (OwnerMsg.dataMsg ((pl.Data.drop k).take (min c'.toNat (pl.Data.length - k)))) with
    | (ow3, dev2, hs2, _) => runPayload f ow3 dev2 hs2
        (tr ++ [OwnerMsg.dataMsg
          ((pl.Data.drop k).take (min c'.toNat (pl.Data.length - k)))])) = _
  rw [deliver_data _ a (k : Int) es del cz _
    (by rw [hlen]; show (k : Int) + _ = (k : Int) + _; omega)]
  show runPayload f
      ⟨[pl], some pl, 0,
        (k : Int) + min c' ((pl.Data.length : Int) - (k : Int)), c', false, none⟩
      ⟨true, a, true,
        (k : Int) + (((pl.Data.drop k).take
          (min c'.toNat (pl.Data.length - k))).length : Int), es, []⟩
      ⟨del ++ [(pl.Data.drop k).take (min c'.toNat (pl.Data.length - k))], cz⟩
      (tr ++ [OwnerMsg.dataMsg
        ((pl.Data.drop k).take (min c'.toNat (pl.Data.length - k)))]) = _
  rw [hmin2, hlen]
  have : (k : Int) + ((min c'.toNat (pl.Data.length - k) : Nat) : Int)
      = ((k + min c'.toNat (pl.Data.length - k) : Nat) : Int) := by push_cast; omega
  rw [this]

theorem round_end (pl : PayloadToSend) (c' : Int) (a : Bool)
    (es : Int) (hes : es = 0 ∨ es = (pl.Data.length : Int)) (f : Nat)
    (tr : List OwnerMsg) (del : List (List Nat)) (cz : Nat) :
    runPayload (f + 1) ⟨[pl], some pl, 0, (pl.Data.length : Int), c', false, none⟩
        ⟨true, a, true, (pl.Data.length : Int), es, []⟩ ⟨del, cz⟩ tr
      = runPayload f ⟨[pl], none, 1, 0, c', false, none⟩
          ⟨true, a, false, (pl.Data.length : Int), es, []⟩ ⟨del, cz⟩
          (tr ++ [OwnerMsg.endMsg]) := by
  show (match PayloadOwner.produceInfo
      ⟨[pl], some pl, 0, (pl.Data.length : Int), c', false, none⟩ with
    | (ow2, [], _, true) => (ow2,
        (⟨true, a, true, (pl.Data.length : Int), es, []⟩ : Payload),
        (⟨del, cz⟩ : HandlerState), tr, true)
    | (ow2, [], _, false) => (ow2, ⟨true, a, true, (pl.Data.length : Int), es, []⟩,
        ⟨del, cz⟩, tr, false)
    | (ow2, msg :: _, _, _) =>
      match deliverToDevice ow2 ⟨true, a, true, (pl.Data.length : Int), es, []⟩
          ⟨del, cz⟩ msg with
      | (ow3, dev2, hs2, _) => runPayload f ow3 dev2 hs2 (tr ++ [msg])) = _
  rw [produceInfo_end pl c' pl.Data.length (by omega)]
  show (match deliverToDevice
      ⟨[pl], some pl, 0, (pl.Data.length : Int), c', false, none⟩
      ⟨true, a, true, (pl.Data.length : Int), es, []⟩ ⟨del, cz⟩ OwnerMsg.endMsg with
    | (ow3, dev2, hs2, _) => runPayload f ow3 dev2 hs2 (tr ++ [OwnerMsg.endMsg])) = _
  rw [deliver_end_ok _ a (pl.Data.length : Int) es del cz (by omega)]

theorem round_done (pl : PayloadToSend) (c' : Int) (dev : Payload)
    (hs : HandlerState) (f : Nat) (tr : List OwnerMsg) :
    runPayload (f + 1) ⟨[pl], none, 1, 0, c', false, none⟩ dev hs tr
      = (⟨[pl], none, 1, 0, c', false, none⟩, dev, hs, tr, true) := rfl

theorem round_begin (pl : PayloadToSend) (c : Int) (a r0 : Bool) (t0 e0 : Int)
    (buf : List Nat) (hs : HandlerState) (f : Nat) (tr : List OwnerMsg) :
    runPayload (f + 1) ⟨[pl], none, 0, 0, c, false, none⟩
        ⟨true, a, r0, t0, e0, buf⟩ hs tr
      = runPayload f
          ⟨[pl], some pl, 0, 0, if c = 0 then 4096 else c, false, none⟩
          ⟨true, a, true, 0,
            if pl.Data.length > 0 then (pl.Data.length : Int) else 0, []⟩
          hs
          (tr ++ [OwnerMsg.beginMsg ⟨pl.MimeType, pl.Name,
            if pl.Data.length > 0 then (pl.Data.length : Int) else 0⟩]) := rfl

theorem chunksOf_ne_nil (c : Nat) (hc : 0 < c) (l : List Nat) (hl : l ≠ []) :
    chunksOf c l = l.take c :: chunksOf c (l.drop c) := by
  rcases l with _ | ⟨x, xs⟩
  · exact absurd rfl hl
  · exact chunksOf_pos c hc x xs

theorem chunksOf_step (c : Nat) (hc : 0 < c) (D : List Nat) (k : Nat)
    (hk : k < D.length) :
    chunksOf c (D.drop k)
      = (D.drop k).take (min c (D.length - k))
        :: chunksOf c (D.drop (k + min c (D.length - k))) := by
  have hne : D.drop k ≠ [] := by
    intro hx
    have := congrArg List.length hx
    simp only [List.length_drop, List.length_nil] at this
    omega
  rw [chunksOf_ne_nil c hc _ hne]
  congr 1
  · refine List.take_eq_take.mpr ?_
    simp only [List.length_drop]
    omega
  · congr 1
    rw [List.drop_drop]
    by_cases hcl : c ≤ D.length - k
    · have hmc : min c (D.length - k) = c := by omega
      rw [hmc]
    · have h1 : D.drop (k + c) = [] := List.drop_eq_nil_of_le (by omega)
      have h2 : D.drop (k + min c (D.length - k)) = []
        := List.drop_eq_nil_of_le (by omega)
      rw [h1, h2]

/-- The data/end phase of the exchange: from a mid-transfer state with `k`
bytes already sent and acknowledged, the run sends the remaining bytes in
chunks, then `end`, the device accepts each chunk, and the module finishes. -/
theorem runPayload_loop (pl : PayloadToSend) (c' : Int) (hc : 1 ≤ c') (a : Bool)
    (es : Int) (hes : es = 0 ∨ es = (pl.Data.length : Int)) :
    ∀ (n : Nat), ∀ (k fuel : Nat), pl.Data.length - k = n → k ≤ pl.Data.length →
      n + 2 ≤ fuel →
      ∀ (tr : List OwnerMsg) (del : List (List Nat)) (cz : Nat),
      runPayload fuel ⟨[pl], some pl, 0, (k : Int), c', false, none⟩
          ⟨true, a, true, (k : Int), es, []⟩ ⟨del, cz⟩ tr
        = (⟨[pl], none, 1, 0, c', false, none⟩,
           ⟨true, a, false, (pl.Data.length : Int), es, []⟩,
           ⟨del ++ chunksOf c'.toNat (pl.Data.drop k), cz⟩,
           tr ++ (chunksOf c'.toNat (pl.Data.drop k)).map OwnerMsg.dataMsg
             ++ [OwnerMsg.endMsg], true) := by
  intro n
  induction n using Nat.strong_induction_on with
  | _ n ih =>
    intro k fuel hn hk hfuel tr del cz
    by_cases hlt : k < pl.Data.length
    · obtain ⟨f2, rfl⟩ : ∃ f2, fuel = f2 + 1 := ⟨fuel - 1, by omega⟩
      rw [round_data pl c' hc a es k f2 hlt tr del cz]
      have hc0 : 0 < c'.toNat := by omega
      have hm1 : 1 ≤ min c'.toNat (pl.Data.length - k) := by omega
      rw [ih (pl.Data.length - (k + min c'.toNat (pl.Data.length - k)))
        (by omega) (k + min c'.toNat (pl.Data.length - k)) f2 rfl (by omega)
        (by omega) _ _ cz]
      rw [chunksOf_step c'.toNat hc0 pl.Data k hlt]
      simp [List.append_assoc]
    · have hkeq : k = pl.Data.length := by omega
      subst hkeq
      obtain ⟨f2, rfl⟩ : ∃ f2, fuel = f2 + 1 := ⟨fuel - 1, by omega⟩
      rw [round_end pl c' a es hes f2 tr del cz]
      obtain ⟨f3, rfl⟩ : ∃ f3, f2 = f3 + 1 := ⟨f2 - 1, by omega⟩
      rw [round_done]
      rw [List.drop_length]
      simp [chunksOf, chunksOfAux]

/-- C5 counterexample: a header whose protected map carries a label holding
a text name does not round trip: the marshaled bytes decode to a header map
with a different label (the text component is lost, and the int component is
what `Label.MarshalCBOR` emitted). -/
theorem C5_counterexample :
    headerMarshalCBOR [(⟨1, [120]⟩, .uint 5)] [] = .ok [130, 67, 161, 1, 5, 160] ∧
    headerUnmarshalCBOR [130, 67, 161, 1, 5, 160]
      = .ok ([(⟨1, []⟩, .uint 5)], []) ∧
    ((⟨1, [120]⟩ : Label) ≠ ⟨1, []⟩) :=
  ⟨rfl, rfl, by decide⟩

/-- C5: an empty protected map marshals to a zero-length byte string (not
to the byte-string wrapping of an encoded empty map), and the marshal /
unmarshal round trip reproduces both header maps whenever every label is
well formed (a non-zero int key with no text form).  The unrestricted
round-trip claim fails (see the counterexample). -/
theorem C5_theorem :
    (∀ (um : HeaderMap) (b : List Nat),
      headerMarshalCBOR [] um = .ok b → ∃ ub, b = 130 :: 64 :: ub) ∧
    (∀ (pm um : HeaderMap) (b : List Nat),
      (∀ lv ∈ pm, WfLabel lv.1) → (∀ lv ∈ um, WfLabel lv.1) →
      headerMarshalCBOR pm um = .ok b →
      headerUnmarshalCBOR b = .ok (pm, um)) :=
  ⟨fun _ _ h => headerMarshal_empty_protected h,
   fun _ _ _ hp hu h => headerRoundtrip hp hu h⟩

theorem C5_witness :
    (∃ ub, ([130, 64, 160] : List Nat) = 130 :: 64 :: ub) ∧
    headerUnmarshalCBOR [130, 67, 161, 1, 5, 160]
      = .ok ([(⟨1, []⟩, .uint 5)], []) :=
  ⟨C5_theorem.1 [] [130, 64, 160] rfl,
   C5_theorem.2 [(⟨1, []⟩, .uint 5)] [] [130, 67, 161, 1, 5, 160]
     (by intro lv hlv; simp at hlv; rw [hlv]; exact ⟨by decide, rfl⟩)
     (by intro lv hlv; simp at hlv)
     rfl⟩

/-- C6: for every queued payload and chunk size, the synchronous exchange
driver emits exactly one `begin`, then data chunks whose byte values
concatenate in order to the payload bytes, then one `end`, the device hands
exactly those chunks in order to its handler, and the module finishes. -/
theorem C6_theorem (pl : PayloadToSend) (c : Int) (hc : 0 ≤ c)
    (a r0 : Bool) (t0 e0 : Int) (buf : List Nat)
    (del : List (List Nat)) (cz : Nat) :
    ∃ chunks : List (List Nat),
      chunks.flatten = pl.Data ∧
      runPayload (pl.Data.length + 3) ⟨[pl], none, 0, 0, c, false, none⟩
          ⟨true, a, r0, t0, e0, buf⟩ ⟨del, cz⟩ []
        = (⟨[pl], none, 1, 0, if c = 0 then 4096 else c, false, none⟩,
           ⟨true, a, false, (pl.Data.length : Int), (pl.Data.length : Int), []⟩,
           ⟨del ++ chunks, cz⟩,
           OwnerMsg.beginMsg ⟨pl.MimeType, pl.Name, (pl.Data.length : Int)⟩
             :: chunks.map OwnerMsg.dataMsg ++ [OwnerMsg.endMsg], true) := by
  have hc1 : 1 ≤ (if c = 0 then 4096 else c) := by split <;> omega
  have hc0 : 0 < (if c = 0 then 4096 else c).toNat := by omega
  refine ⟨chunksOf (if c = 0 then 4096 else c).toNat pl.Data, ?_, ?_⟩
  · exact chunksOf_flatten _ hc0 pl.Data.length pl.Data (le_refl _)
  · have hstep := round_begin pl c a r0 t0 e0 buf ⟨del, cz⟩ (pl.Data.length + 2) []
    rw [show pl.Data.length + 3 = (pl.Data.length + 2) + 1 from rfl, hstep]
    have hsize : (if pl.Data.length > 0 then (pl.Data.length : Int) else 0)
        = (pl.Data.length : Int) := by split <;> omega
    rw [hsize]
    have hloop := runPayload_loop pl (if c = 0 then 4096 else c) hc1 a
      (pl.Data.length : Int) (Or.inr rfl) pl.Data.length 0 (pl.Data.length + 2)
      (by omega) (by omega) (by omega)
      ([] ++ [OwnerMsg.beginMsg ⟨pl.MimeType, pl.Name, (pl.Data.length : Int)⟩])
      del cz
    rw [Nat.cast_zero] at hloop
    rw [hloop]
    simp [List.drop_zero]

theorem C6_witness :
    ∃ chunks : List (List Nat),
      chunks.flatten = [1, 2, 3] ∧
      runPayload 6 ⟨[⟨"m", "n", [1, 2, 3]⟩], none, 0, 0, 2, false, none⟩
          ⟨true, true, false, 0, 0, []⟩ ⟨[], 0⟩ []
        = (⟨[⟨"m", "n", [1, 2, 3]⟩], none, 1, 0,
             if (2 : Int) = 0 then 4096 else 2, false, none⟩,
           ⟨true, true, false, 3, 3, []⟩,
           ⟨[] ++ chunks, 0⟩,
           OwnerMsg.beginMsg ⟨"m", "n", 3⟩
             :: chunks.map OwnerMsg.dataMsg ++ [OwnerMsg.endMsg], true) :=
  C6_theorem ⟨"m", "n", [1, 2, 3]⟩ 2 (by decide) true false 0 0 [] [] 0

/-- C10 counterexample: `end` with a size mismatch.  The transfer is in
progress (`receiving` true with a handler) when `Receive` is called, the
call errors, yet the handler records no `CancelPayload` call: the error
path clears `receiving` before `reset` runs, so the cancel condition inside
`reset` no longer fires. -/
theorem C10_counterexample :
    (⟨true, true, true, 3, 5, []⟩ : Payload).receiving = true ∧
    (⟨true, true, true, 3, 5, []⟩ : Payload).hasHandler = true ∧
    Payload.Receive ⟨true, true, true, 3, 5, []⟩ ⟨[], 0⟩ .endMsg
      = (⟨true, true, false, 0, 0, []⟩, ⟨[], 0⟩,
         [.errMsg 6 "Size mismatch"], some "payload error: Size mismatch") :=
  ⟨rfl, rfl, rfl⟩

/-- C10: whenever `Receive` errors the module fields are zeroed before
returning, `Transition(false)` is exactly `reset`, `reset` cancels via the
handler exactly when the module still marks `receiving` at reset time, and
a `begin` on any module state depends only on the handler presence and
active flag (so a reset module handles `begin` as a fresh one).  The
cancellation-on-every-error part of the claim fails: see the
counterexample. -/
theorem C10_theorem :
    (∀ (p : Payload) (hs : HandlerState) (msg : OwnerMsg)
       (p2 : Payload) (hs2 : HandlerState) (out : List DevMsg) (e : String),
      Payload.Receive p hs msg = (p2, hs2, out, some e) →
      p2 = ⟨p.hasHandler, p.Active, false, 0, 0, []⟩) ∧
    (∀ (p : Payload) (hs : HandlerState),
      Payload.Transition p hs false = p.reset hs) ∧
    (∀ (p : Payload) (hs : HandlerState),
      ((p.reset hs).2).cancels
        = if p.receiving && p.hasHandler then hs.cancels + 1 else hs.cancels) ∧
    (∀ (p : Payload) (hs : HandlerState) (b : BeginInfo),
      p.hasHandler = true →
      Payload.receiveMsg p hs (.beginMsg b)
        = (⟨p.hasHandler, p.Active, true, 0, b.size, []⟩, hs,
           [.readyMsg true], none)) := by
  refine ⟨?_, ?_, ?_, ?_⟩
  · intro p hs msg p2 hs2 out e h
    rcases p with ⟨hh, ac, rc, tb, es, bf⟩
    cases msg with
    | activeMsg b =>
      simp [Payload.Receive, Payload.receiveMsg] at h
    | beginMsg b =>
      cases hh with
      | false =>
        simp [Payload.Receive, Payload.receiveMsg, Payload.reset] at h
        simp [← h.1]
      | true =>
        simp [Payload.Receive, Payload.receiveMsg] at h
    | dataMsg ch =>
      cases rc with
      | false =>
        simp [Payload.Receive, Payload.receiveMsg, Payload.reset] at h
        simp [← h.1]
      | true =>
        simp [Payload.Receive, Payload.receiveMsg] at h
    | endMsg =>
      cases rc with
      | false =>
        simp [Payload.Receive, Payload.receiveMsg, Payload.reset] at h
        simp [← h.1]
      | true =>
        by_cases hms : es > 0 ∧ tb ≠ es
        · simp [Payload.Receive, Payload.receiveMsg, Payload.reset, hms] at h
          simp [← h.1]
        · simp [Payload.Receive, Payload.receiveMsg, Payload.reset, hms] at h
  · intro p hs
    rfl
  · intro p hs
    cases hb : p.receiving && p.hasHandler <;> simp [Payload.reset, hb]
  · intro p hs b hph
    simp [Payload.receiveMsg, hph]

theorem C10_witness :
    (⟨true, true, false, 0, 0, []⟩ : Payload)
        = ⟨(⟨true, true, false, 1, 2, [3]⟩ : Payload).hasHandler,
           (⟨true, true, false, 1, 2, [3]⟩ : Payload).Active, false, 0, 0, []⟩ ∧
    Payload.Transition ⟨true, true, true, 1, 2, []⟩ ⟨[], 0⟩ false
      = Payload.reset ⟨true, true, true, 1, 2, []⟩ ⟨[], 0⟩ ∧
    ((Payload.reset ⟨true, true, true, 1, 2, []⟩ ⟨[], 5⟩).2).cancels
      = (if (⟨true, true, true, 1, 2, []⟩ : Payload).receiving
            && (⟨true, true, true, 1, 2, []⟩ : Payload).hasHandler
         then (⟨[], 5⟩ : HandlerState).cancels + 1
         else (⟨[], 5⟩ : HandlerState).cancels) ∧
    Payload.receiveMsg ⟨true, false, false, 7, 8, [1]⟩ ⟨[], 0⟩
        (.beginMsg ⟨"m", "n", 42⟩)
      = (⟨true, false, true, 0, 42, []⟩, ⟨[], 0⟩, [.readyMsg true], none) :=
  ⟨C10_theorem.1 ⟨true, true, false, 1, 2, [3]⟩ ⟨[], 0⟩ (.dataMsg [9])
     ⟨true, true, false, 0, 0, []⟩ ⟨[], 0⟩
     [.errMsg 6 "Not ready to receive data"]
     "payload error: Not ready to receive data" rfl,
   C10_theorem.2.1 ⟨true, true, true, 1, 2, []⟩ ⟨[], 0⟩,
   C10_theorem.2.2.1 ⟨true, true, true, 1, 2, []⟩ ⟨[], 5⟩,
   C10_theorem.2.2.2 ⟨true, false, false, 7, 8, [1]⟩ ⟨[], 0⟩ ⟨"m", "n", 42⟩ rfl⟩

end GoFdo
